import Mathlib

set_option maxHeartbeats 1000000

namespace YAOTA

/-!
Shallow embedding of `src/src/core/FlashcardProcessor.ts` (the flashcard
reconciliation engine of the yet-another-obsidian-to-anki repository).

Documents are lists of characters; JS string primitives (`split`, `slice`,
`indexOf`, `trim`, `match`, `replace`, `test`, `join`, `parseInt`) are
modelled directly.  The two regular expressions of the source,

  NOTE_ID_REGEX  = <!--\s*noteId:(\d+)\s*-->
  VALID_IDS_REGEX = <!--\s*validNoteIds:\s*([\d,\s]+)\s*-->

contain no alternation and every quantified atom is followed by a literal
that its character class cannot match (whitespace cannot start "noteId:",
a digit cannot start "-->", and the class [\d,\s] cannot contain the dash
of "-->"), so JS backtracking search degenerates to maximal-munch scanning
at each start position; the only visible backtracking effect is in the
capture group of VALID_IDS_REGEX when the class run is pure whitespace
(the greedy leading \s* then yields exactly one character to the class),
which `captureOf` reproduces.
-/

/-- JS whitespace: the characters matched by the regex class \s and
trimmed by String.trim. -/
def isWS (c : Char) : Bool :=
  c = ' ' || c = '\t' || c = '\n' || c = '\r' || c = '\x0b' || c = '\x0c' ||
  c = '\u00A0' || c = '\u1680' || c = '\u2000' || c = '\u2001' || c = '\u2002' ||
  c = '\u2003' || c = '\u2004' || c = '\u2005' || c = '\u2006' || c = '\u2007' ||
  c = '\u2008' || c = '\u2009' || c = '\u200A' || c = '\u2028' || c = '\u2029' ||
  c = '\u202F' || c = '\u205F' || c = '\u3000' || c = '\uFEFF'

/-- The regex class \d. -/
def isDigitChar (c : Char) : Bool := '0' ≤ c && c ≤ '9'

/-- If `lit` is a prefix of `s`, return the remainder of `s`. -/
def stripLit : List Char → List Char → Option (List Char)
  | [], s => some s
  | _ :: _, [] => none
  | a :: as, c :: cs => if a = c then stripLit as cs else none

/-- JS String.split with a one-character separator. -/
def jsSplit (sep : Char) : List Char → List (List Char)
  | [] => [[]]
  | c :: cs =>
    if c = sep then [] :: jsSplit sep cs
    else
      match jsSplit sep cs with
      | [] => [[c]]
      | h :: t => (c :: h) :: t

/-- JS Array.join with a separator string. -/
def joinSep (sep : List Char) : List (List Char) → List Char
  | [] => []
  | [l] => l
  | l :: ls => l ++ sep ++ joinSep sep ls

/-- JS String.trim. -/
def trim (s : List Char) : List Char :=
  ((s.dropWhile isWS).reverse.dropWhile isWS).reverse

/-- Decimal value of a digit string (JS parseInt applied to a string of
decimal digits). -/
def digitsToNat (ds : List Char) : Nat :=
  ds.foldl (fun a c => 10 * a + (c.toNat - 48)) 0

/-- Big-endian decimal digits with explicit fuel, so the definition is
structurally recursive and kernel-reducible. -/
def natToCharsAux : Nat → Nat → List Char
  | 0, _ => []
  | fuel + 1, n =>
    if n = 0 then []
    else natToCharsAux fuel (n / 10) ++ [Char.ofNat (48 + n % 10)]

/-- Decimal rendering of a natural number (JS number-to-string conversion,
as performed by Array.join and template literals). -/
def natToChars (n : Nat) : List Char :=
  if n = 0 then ['0'] else natToCharsAux n n

/-- JS parseInt restricted to the strings that can arise here (digits and
whitespace only, already trimmed, so no sign and no 0x prefix): the value
of the maximal leading digit run, or NaN (none) when that run is empty. -/
def jsParseIntOpt (s : List Char) : Option Nat :=
  let ds := s.takeWhile isDigitChar
  if ds = [] then none else some (digitsToNat ds)

def openComment : List Char := "<!--".toList
def noteIdKey : List Char := "noteId:".toList
def validIdsKey : List Char := "validNoteIds:".toList
def closeComment : List Char := "-->".toList

/-- Match NOTE_ID_REGEX at the start of `s`; on success return the captured
digit run and the text after the match. -/
def tryNoteIdAt (s : List Char) : Option (List Char × List Char) :=
  match stripLit openComment s with
  | none => none
  | some s1 =>
    match stripLit noteIdKey (s1.dropWhile isWS) with
    | none => none
    | some s2 =>
      let ds := s2.takeWhile isDigitChar
      if ds = [] then none
      else
        match stripLit closeComment ((s2.dropWhile isDigitChar).dropWhile isWS) with
        | none => none
        | some rest => some (ds, rest)

/-- Leftmost match of NOTE_ID_REGEX: text before the match, captured digits,
text after the match. -/
def findNoteIdSplit : List Char → Option (List Char × List Char × List Char)
  | [] => none
  | c :: cs =>
    match tryNoteIdAt (c :: cs) with
    | some (ds, rest) => some ([], ds, rest)
    | none =>
      match findNoteIdSplit cs with
      | none => none
      | some (pre, ds, rest) => some (c :: pre, ds, rest)

/-- JS line.match(NOTE_ID_REGEX), reduced to its capture group. -/
def findNoteIdDigits (s : List Char) : Option (List Char) :=
  (findNoteIdSplit s).map (fun t => t.2.1)

/-- JS String.replace(NOTE_ID_REGEX, ""): remove the first match, if any. -/
def removeNoteId (s : List Char) : List Char :=
  match findNoteIdSplit s with
  | none => s
  | some (pre, _, rest) => pre ++ rest

/-- The regex class [\d,\s]. -/
def isClassChar (c : Char) : Bool := isDigitChar c || c = ',' || isWS c

/-- Capture group of VALID_IDS_REGEX given the maximal class run: the greedy
leading \s* eats the whitespace prefix, unless the run is pure whitespace,
in which case it backtracks by one character so the class can match. -/
def captureOf (run : List Char) : List Char :=
  let t := run.dropWhile isWS
  if t = [] then run.drop (run.length - 1) else t

/-- Match VALID_IDS_REGEX at the start of `s`; on success return the capture
and the text after the match. -/
def tryValidIdsAt (s : List Char) : Option (List Char × List Char) :=
  match stripLit openComment s with
  | none => none
  | some s1 =>
    match stripLit validIdsKey (s1.dropWhile isWS) with
    | none => none
    | some s2 =>
      let run := s2.takeWhile isClassChar
      if run = [] then none
      else
        match stripLit closeComment (s2.dropWhile isClassChar) with
        | none => none
        | some rest => some (captureOf run, rest)

/-- Leftmost match of VALID_IDS_REGEX, reduced to its capture group
(JS content.match(VALID_IDS_REGEX)). -/
def findValidCapture : List Char → Option (List Char)
  | [] => none
  | c :: cs =>
    match tryValidIdsAt (c :: cs) with
    | some (cap, _) => some cap
    | none => findValidCapture cs

/-- JS VALID_IDS_REGEX.test. -/
def testValidIds (s : List Char) : Bool := (findValidCapture s).isSome

def cardDelim : List Char := " ::: ".toList

/-- First occurrence of the flashcard delimiter (JS line.indexOf(" ::: ")
combined with the two slices): text before and text after the delimiter. -/
def splitDelim : List Char → Option (List Char × List Char)
  | [] => none
  | c :: cs =>
    match stripLit cardDelim (c :: cs) with
    | some rest => some ([], rest)
    | none =>
      match splitDelim cs with
      | none => none
      | some (pre, post) => some (c :: pre, post)

/-- FlashcardProcessor.parseValidNoteIds. -/
def parseValidNoteIds (content : List Char) : List Nat :=
  match findValidCapture content with
  | none => []
  | some cap => (jsSplit ',' cap).filterMap (fun s => jsParseIntOpt (trim s))

/-- The identifier comment appended to a newly added flashcard line. -/
def noteComment (n : Nat) : List Char :=
  "<!-- noteId:".toList ++ natToChars n ++ " -->".toList

/-- The valid-identifier-set line appended at the end of the document. -/
def validLine (acc : List Nat) : List Char :=
  "<!-- validNoteIds: ".toList ++ joinSep [','] (acc.map natToChars) ++ " -->".toList

/-- Modelled from the spec (for refinement comparison only): the §6 grammar
of the valid-set line, `<!-- validNoteIds: <digits>[,<digits>]* -->`,
which requires at least one non-empty digit group. -/
def specValidSetLine (l : List Char) : Prop :=
  ∃ ds : List (List Char), ds ≠ [] ∧
    (∀ d ∈ ds, d ≠ [] ∧ ∀ c ∈ d, isDigitChar c = true) ∧
    l = "<!-- validNoteIds: ".toList ++ joinSep [','] ds ++ " -->".toList

/-- The store capability (AnkiManager).  Responses are given as a function of
the number of store calls made so far in the run, so stateful stores and
failing stores are both expressible. -/
structure AnkiStore where
  addNote : Nat → List Char → List Char → Except (List Char) Nat
  updateNote : Nat → Nat → List Char → List Char → Except (List Char) Unit
  deleteNotes : Nat → List Nat → Except (List Char) Unit

/-- A store call issued by the engine, recorded for the theorems. -/
inductive StoreCall where
  | add : List Char → List Char → StoreCall
  | update : Nat → List Char → List Char → StoreCall
  | delete : List Nat → StoreCall
deriving DecidableEq

def dupLit1 : List Char := "cannot create note because it is a duplicate".toList
def dupLit2 : List Char := "duplicate".toList

/-- JS String.includes. -/
def isSub (pat : List Char) : List Char → Bool
  | [] => pat.isEmpty
  | c :: cs => (stripLit pat (c :: cs)).isSome || isSub pat cs

/-- The duplicate-content classification of the catch branch of the add
path. -/
def isDupMsg (m : List Char) : Bool := isSub dupLit1 m || isSub dupLit2 m

/-- State threaded through the record loop: number of store calls made,
the noteIdsInFile accumulator, and the log of calls. -/
structure SyncState where
  k : Nat
  acc : List Nat
  log : List StoreCall
deriving DecidableEq

/-- The record loop of FlashcardProcessor.process: one pass over the lines,
returning the (possibly annotated) lines, the final state, and the thrown
error, if any.  On a throw the remaining lines are returned unprocessed. -/
def processLines (st : AnkiStore) : List (List Char) → SyncState →
    List (List Char) × SyncState × Option (List Char)
  | [], s => ([], s, none)
  | line :: rest, s =>
    match splitDelim line with
    | none =>
      let r := processLines st rest s
      (line :: r.1, r.2)
    | some (pre, post) =>
      let front := trim pre
      let back := trim (removeNoteId post)
      if front = [] ∨ back = [] then
        let r := processLines st rest s
        (line :: r.1, r.2)
      else
        match findNoteIdDigits line with
        | some ds =>
          let noteId := digitsToNat ds
          match st.updateNote s.k noteId front back with
          | Except.ok _ =>
            let r := processLines st rest
              ⟨s.k + 1, s.acc ++ [noteId], s.log ++ [StoreCall.update noteId front back]⟩
            (line :: r.1, r.2)
          | Except.error m =>
            (line :: rest, ⟨s.k + 1, s.acc, s.log ++ [StoreCall.update noteId front back]⟩,
              some m)
        | none =>
          match st.addNote s.k front back with
          | Except.ok newId =>
            let r := processLines st rest
              ⟨s.k + 1, s.acc ++ [newId], s.log ++ [StoreCall.add front back]⟩
            ((line ++ (' ' :: noteComment newId)) :: r.1, r.2)
          | Except.error m =>
            if isDupMsg m then
              let r := processLines st rest
                ⟨s.k + 1, s.acc, s.log ++ [StoreCall.add front back]⟩
              (line :: r.1, r.2)
            else
              (line :: rest, ⟨s.k + 1, s.acc, s.log ++ [StoreCall.add front back]⟩,
                some m)

def initState : SyncState := ⟨0, [], []⟩

/-- The record loop applied to the split document. -/
def runLoop (st : AnkiStore) (content : List Char) :
    List (List Char) × SyncState × Option (List Char) :=
  processLines st (jsSplit '\n' content) initState

/-- The deletion diff: previous identifiers not reproduced by this pass. -/
def deletedIdsOf (st : AnkiStore) (content : List Char) : List Nat :=
  (parseValidNoteIds content).filter
    (fun i => !((runLoop st content).2.1.acc.contains i))

/-- The serialization step: drop every line matching VALID_IDS_REGEX and
append the refreshed valid-identifier-set line. -/
def finishDoc (lines : List (List Char)) (acc : List Nat) : List Char :=
  joinSep ['\n'] ((lines.filter (fun l => !testValidIds l)) ++ [validLine acc])

/-- FlashcardProcessor.process: returns the rewritten document or the thrown
error, together with the log of store calls issued. -/
def process (st : AnkiStore) (content : List Char) :
    Except (List Char) (List Char) × List StoreCall :=
  let r := runLoop st content
  match r.2.2 with
  | some m => (Except.error m, r.2.1.log)
  | none =>
    let deletedIds := deletedIdsOf st content
    if deletedIds = [] then (Except.ok (finishDoc r.1 r.2.1.acc), r.2.1.log)
    else
      match st.deleteNotes r.2.1.k deletedIds with
      | Except.error m => (Except.error m, r.2.1.log ++ [StoreCall.delete deletedIds])
      | Except.ok _ =>
        (Except.ok (finishDoc r.1 r.2.1.acc), r.2.1.log ++ [StoreCall.delete deletedIds])

/-- A line is a flashcard candidate: it contains the delimiter and both the
trimmed front and the trimmed, identifier-stripped back are non-empty. -/
def isCandidate (l : List Char) : Bool :=
  match splitDelim l with
  | none => false
  | some (pre, post) =>
    if trim pre = [] ∨ trim (removeNoteId post) = [] then false else true

/-- The identifier a line contributes to the accumulator when it takes the
update path (and processing does not abort). -/
def pushId (l : List Char) : Option Nat :=
  match splitDelim l with
  | none => none
  | some (pre, post) =>
    if trim pre = [] ∨ trim (removeNoteId post) = [] then none
    else (findNoteIdDigits l).map digitsToNat

def isRecordCall : StoreCall → Bool
  | StoreCall.add _ _ => true
  | StoreCall.update _ _ _ => true
  | StoreCall.delete _ => false

def isDeleteCall : StoreCall → Bool
  | StoreCall.delete _ => true
  | _ => false

deriving instance DecidableEq for Except

/-- A store that always succeeds and hands out identifiers 10, 11, ... in
call order. -/
def stOk : AnkiStore :=
  { addNote := fun k _ _ => Except.ok (10 + k),
    updateNote := fun _ _ _ _ => Except.ok (),
    deleteNotes := fun _ _ => Except.ok () }

/-- A store that rejects every add as a duplicate and succeeds otherwise. -/
def stDup : AnkiStore :=
  { addNote := fun _ _ _ => Except.error dupLit2,
    updateNote := fun _ _ _ _ => Except.ok (),
    deleteNotes := fun _ _ => Except.ok () }

/-- A store whose adds and updates succeed but whose deletes fail. -/
def stDelFail : AnkiStore :=
  { addNote := fun k _ _ => Except.ok (10 + k),
    updateNote := fun _ _ _ _ => Except.ok (),
    deleteNotes := fun _ _ => Except.error "network down".toList }

/-- A store whose adds fail with a non-duplicate message. -/
def stAddFail : AnkiStore :=
  { addNote := fun _ _ _ => Except.error "boom".toList,
    updateNote := fun _ _ _ _ => Except.ok (),
    deleteNotes := fun _ _ => Except.ok () }

/-!  ## Basic lemmas about the string primitives  -/

theorem stripLit_eq_some {lit s r : List Char} :
    stripLit lit s = some r ↔ s = lit ++ r := by
  induction lit generalizing s with
  | nil => simp [stripLit]
  | cons a as ih =>
    cases s with
    | nil => simp [stripLit]
    | cons c cs =>
      by_cases h : a = c
      · subst h
        simpa [stripLit] using ih
      · simp [stripLit, h, Ne.symm h]

theorem stripLit_self_append (lit r : List Char) : stripLit lit (lit ++ r) = some r :=
  stripLit_eq_some.mpr rfl

theorem stripLit_append_some {lit x r : List Char} (h : stripLit lit x = some r)
    (y : List Char) : stripLit lit (x ++ y) = some (r ++ y) := by
  rw [stripLit_eq_some] at h ⊢
  subst h
  simp

theorem stripLit_none_long {lit t : List Char} (h : stripLit lit t = none)
    (hl : lit.length ≤ t.length) (y : List Char) : stripLit lit (t ++ y) = none := by
  induction lit generalizing t with
  | nil => simp [stripLit] at h
  | cons a as ih =>
    cases t with
    | nil => simp at hl
    | cons c cs =>
      by_cases hac : a = c
      · subst hac
        simp only [stripLit, if_pos rfl] at h ⊢
        exact ih h (by simpa using hl)
      · simp [stripLit, hac]

theorem stripLit_append_cases {lit t y r : List Char}
    (h : stripLit lit (t ++ y) = some r) :
    (∃ r0, stripLit lit t = some r0 ∧ r = r0 ++ y) ∨
    (∃ lit2, lit = t ++ lit2 ∧ stripLit lit2 y = some r) := by
  rw [stripLit_eq_some] at h
  rcases List.append_eq_append_iff.mp h.symm with ⟨a, ha1, ha2⟩ | ⟨c, hc1, hc2⟩
  · exact Or.inl ⟨a, stripLit_eq_some.mpr ha1, ha2⟩
  · exact Or.inr ⟨c, hc1, stripLit_eq_some.mpr hc2⟩

theorem takeWhile_all_append {p : Char → Bool} {x : List Char}
    (hx : ∀ a ∈ x, p a = true) {c : Char} (hc : p c = false) (z : List Char) :
    (x ++ c :: z).takeWhile p = x := by
  induction x with
  | nil => simp [List.takeWhile_cons, hc]
  | cons a as ih =>
    have ha : p a = true := hx a (by simp)
    simp only [List.cons_append, List.takeWhile_cons, ha]
    simp [ih (fun b hb => hx b (by simp [hb]))]

theorem dropWhile_all_append {p : Char → Bool} {x : List Char}
    (hx : ∀ a ∈ x, p a = true) {c : Char} (hc : p c = false) (z : List Char) :
    (x ++ c :: z).dropWhile p = c :: z := by
  induction x with
  | nil => simp [List.dropWhile_cons, hc]
  | cons a as ih =>
    have ha : p a = true := hx a (by simp)
    simp only [List.cons_append, List.dropWhile_cons, ha]
    simpa using ih (fun b hb => hx b (by simp [hb]))

theorem jsSplit_ne_nil (sep : Char) (s : List Char) : jsSplit sep s ≠ [] := by
  induction s with
  | nil => simp [jsSplit]
  | cons c cs ih =>
    by_cases h : c = sep
    · simp [jsSplit, h]
    · simp only [jsSplit, if_neg h]
      cases hj : jsSplit sep cs with
      | nil => simp
      | cons a b => simp

theorem mem_jsSplit_not_sep {sep : Char} {s l : List Char}
    (h : l ∈ jsSplit sep s) : sep ∉ l := by
  induction s generalizing l with
  | nil =>
    simp [jsSplit] at h
    subst h
    simp
  | cons c cs ih =>
    by_cases hc : c = sep
    · simp only [jsSplit, if_pos hc, List.mem_cons] at h
      rcases h with h | h
      · subst h; simp
      · exact ih h
    · simp only [jsSplit, if_neg hc] at h
      cases hj : jsSplit sep cs with
      | nil => exact absurd hj (jsSplit_ne_nil sep cs)
      | cons a b =>
        rw [hj] at h
        simp only [List.mem_cons] at h
        rcases h with h | h
        · subst h
          have ha : sep ∉ a := ih (by rw [hj]; simp)
          simp only [List.mem_cons]
          rintro (h | h)
          · exact hc h.symm
          · exact ha h
        · exact ih (by rw [hj]; simp [h])

theorem jsSplit_single {sep : Char} {l : List Char} (h : sep ∉ l) :
    jsSplit sep l = [l] := by
  induction l with
  | nil => rfl
  | cons c cs ih =>
    have hc : ¬ c = sep := by
      intro e
      exact h (by simp [e])
    have h2 := ih (fun hm => h (by simp [hm]))
    simp [jsSplit, hc, h2]

theorem jsSplit_append_sep {sep : Char} {l rest : List Char} (h : sep ∉ l) :
    jsSplit sep (l ++ sep :: rest) = l :: jsSplit sep rest := by
  induction l with
  | nil => simp [jsSplit]
  | cons c cs ih =>
    have hc : ¬ c = sep := fun e => h (by simp [e])
    have h2 := ih (fun hm => h (by simp [hm]))
    simp only [List.cons_append, jsSplit, if_neg hc]
    rw [show cs.append (sep :: rest) = cs ++ sep :: rest from rfl, h2]

theorem joinSep_cons (sep l : List Char) (ls : List (List Char)) (h : ls ≠ []) :
    joinSep sep (l :: ls) = l ++ sep ++ joinSep sep ls := by
  cases ls with
  | nil => exact absurd rfl h
  | cons a b => rfl

theorem jsSplit_joinSep {sep : Char} {ls : List (List Char)} (h0 : ls ≠ [])
    (hmem : ∀ l ∈ ls, sep ∉ l) : jsSplit sep (joinSep [sep] ls) = ls := by
  induction ls with
  | nil => exact absurd rfl h0
  | cons l ls ih =>
    cases ls with
    | nil => simpa [joinSep] using jsSplit_single (hmem l (by simp))
    | cons a b =>
      rw [joinSep_cons _ _ _ (by simp)]
      have he : l ++ [sep] ++ joinSep [sep] (a :: b) =
          l ++ sep :: joinSep [sep] (a :: b) := by simp
      rw [he, jsSplit_append_sep (hmem l (by simp))]
      rw [ih (by simp) (fun x hx => hmem x (by simp [hx]))]

theorem mem_joinSep {sep : List Char} {ls : List (List Char)} {c : Char}
    (h : c ∈ joinSep sep ls) : c ∈ sep ∨ ∃ l ∈ ls, c ∈ l := by
  induction ls with
  | nil => simp [joinSep] at h
  | cons l ls ih =>
    cases ls with
    | nil => exact Or.inr ⟨l, by simp, h⟩
    | cons a b =>
      rw [joinSep_cons _ _ _ (by simp)] at h
      simp only [List.append_assoc, List.mem_append] at h
      rcases h with h | h | h
      · exact Or.inr ⟨l, by simp, h⟩
      · exact Or.inl h
      · rcases ih h with h2 | ⟨x, hx, hcx⟩
        · exact Or.inl h2
        · exact Or.inr ⟨x, by simp [List.mem_cons] at hx ⊢; tauto, hcx⟩

theorem digitChar_toNat {d : Nat} (hd : d < 10) :
    (Char.ofNat (48 + d)).toNat = 48 + d := by
  interval_cases d <;> decide

theorem digitChar_isDigit {d : Nat} (hd : d < 10) :
    isDigitChar (Char.ofNat (48 + d)) = true := by
  interval_cases d <;> decide

theorem mem_natToCharsAux_digit :
    ∀ {fuel n : Nat} {c : Char}, c ∈ natToCharsAux fuel n → isDigitChar c = true := by
  intro fuel
  induction fuel with
  | zero =>
    intro n c h
    simp [natToCharsAux] at h
  | succ fuel ih =>
    intro n c h
    rw [natToCharsAux] at h
    split at h
    · simp at h
    · rcases List.mem_append.mp h with h | h
      · exact ih h
      · simp only [List.mem_singleton] at h
        subst h
        exact digitChar_isDigit (Nat.mod_lt _ (by norm_num))

theorem mem_natToChars_digit {n : Nat} {c : Char} (h : c ∈ natToChars n) :
    isDigitChar c = true := by
  unfold natToChars at h
  split at h
  · simp at h
    subst h
    decide
  · exact mem_natToCharsAux_digit h

theorem natToChars_ne_nil (n : Nat) : natToChars n ≠ [] := by
  unfold natToChars
  split
  · simp
  · rcases n with _ | n
    · simp_all
    · rw [natToCharsAux]
      split
      · simp_all
      · simp

theorem digitsToNat_append_one (x : List Char) (a : Char) :
    digitsToNat (x ++ [a]) = 10 * digitsToNat x + (a.toNat - 48) := by
  unfold digitsToNat
  rw [List.foldl_append]
  rfl

theorem digitsToNat_natToCharsAux :
    ∀ (fuel n : Nat), n ≤ fuel → digitsToNat (natToCharsAux fuel n) = n := by
  intro fuel
  induction fuel with
  | zero =>
    intro n h
    interval_cases n
    rfl
  | succ fuel ih =>
    intro n h
    rw [natToCharsAux]
    split
    · simp_all [digitsToNat]
    · rename_i hn0
      rw [digitsToNat_append_one,
        ih (n / 10) (by omega),
        digitChar_toNat (Nat.mod_lt _ (by norm_num))]
      omega

theorem digitsToNat_natToChars (n : Nat) : digitsToNat (natToChars n) = n := by
  unfold natToChars
  split
  · subst n
    decide
  · exact digitsToNat_natToCharsAux n n (le_refl n)

/-!  ## Character class facts  -/

theorem ws_not_digit {c : Char} (h : isWS c = true) : isDigitChar c = false := by
  simp only [isWS, Bool.or_eq_true, decide_eq_true_eq] at h
  rcases h with (((((((((((((((((((((((h | h) | h) | h) | h) | h) | h) | h) | h) |
    h) | h) | h) | h) | h) | h) | h) | h) | h) | h) | h) | h) | h) | h) | h) | h <;>
    subst h <;> decide

theorem ws_isClass {c : Char} (h : isWS c = true) : isClassChar c = true := by
  simp [isClassChar, h]

theorem digit_isClass {c : Char} (h : isDigitChar c = true) : isClassChar c = true := by
  simp [isClassChar, h]

/-!  ## Constructive matching lemmas for the two regexes  -/

theorem tryNoteIdAt_construct {w1 w2 ds : List Char}
    (hw1 : ∀ a ∈ w1, isWS a = true) (hw2 : ∀ a ∈ w2, isWS a = true)
    (hds : ds ≠ []) (hdig : ∀ a ∈ ds, isDigitChar a = true) (rest : List Char) :
    tryNoteIdAt (openComment ++ w1 ++ noteIdKey ++ ds ++ w2 ++ closeComment ++ rest) =
      some (ds, rest) := by
  have e : openComment ++ w1 ++ noteIdKey ++ ds ++ w2 ++ closeComment ++ rest =
      openComment ++ (w1 ++ (noteIdKey ++ (ds ++ (w2 ++ (closeComment ++ rest))))) := by
    simp only [List.append_assoc]
  have h1 := stripLit_self_append openComment
    (w1 ++ (noteIdKey ++ (ds ++ (w2 ++ (closeComment ++ rest)))))
  have ekey : noteIdKey ++ (ds ++ (w2 ++ (closeComment ++ rest))) =
      'n' :: ("oteId:".toList ++ (ds ++ (w2 ++ (closeComment ++ rest)))) := rfl
  have h2 : (w1 ++ (noteIdKey ++ (ds ++ (w2 ++ (closeComment ++ rest))))).dropWhile isWS =
      noteIdKey ++ (ds ++ (w2 ++ (closeComment ++ rest))) := by
    rw [ekey]
    exact dropWhile_all_append hw1 (by decide) _
  have h3 := stripLit_self_append noteIdKey (ds ++ (w2 ++ (closeComment ++ rest)))
  have h4 : (ds ++ (w2 ++ (closeComment ++ rest))).takeWhile isDigitChar = ds := by
    cases w2 with
    | nil =>
      have ec : ([] : List Char) ++ (closeComment ++ rest) =
          '-' :: ("->".toList ++ rest) := rfl
      rw [ec]
      exact takeWhile_all_append hdig (by decide) _
    | cons a w2t =>
      have ha : isDigitChar a = false := ws_not_digit (hw2 a (by simp))
      exact takeWhile_all_append hdig ha _
  have h5 : (ds ++ (w2 ++ (closeComment ++ rest))).dropWhile isDigitChar =
      w2 ++ (closeComment ++ rest) := by
    cases w2 with
    | nil =>
      have ec : ([] : List Char) ++ (closeComment ++ rest) =
          '-' :: ("->".toList ++ rest) := rfl
      rw [ec]
      exact dropWhile_all_append hdig (by decide) _
    | cons a w2t =>
      have ha : isDigitChar a = false := ws_not_digit (hw2 a (by simp))
      exact dropWhile_all_append hdig ha _
  have h6 : (w2 ++ (closeComment ++ rest)).dropWhile isWS = closeComment ++ rest := by
    have ec : closeComment ++ rest = '-' :: ("->".toList ++ rest) := rfl
    rw [ec]
    exact dropWhile_all_append hw2 (by decide) _
  have h7 := stripLit_self_append closeComment rest
  rw [e]
  simp only [tryNoteIdAt, h1, h2, h3, h4, h5, h6, h7, if_neg hds]

theorem tryValidIdsAt_construct {w1 run : List Char}
    (hw1 : ∀ a ∈ w1, isWS a = true) (hrun : run ≠ [])
    (hcl : ∀ a ∈ run, isClassChar a = true) (rest : List Char) :
    tryValidIdsAt (openComment ++ w1 ++ validIdsKey ++ run ++ closeComment ++ rest) =
      some (captureOf run, rest) := by
  have e : openComment ++ w1 ++ validIdsKey ++ run ++ closeComment ++ rest =
      openComment ++ (w1 ++ (validIdsKey ++ (run ++ (closeComment ++ rest)))) := by
    simp only [List.append_assoc]
  have h1 := stripLit_self_append openComment
    (w1 ++ (validIdsKey ++ (run ++ (closeComment ++ rest))))
  have ekey : validIdsKey ++ (run ++ (closeComment ++ rest)) =
      'v' :: ("alidNoteIds:".toList ++ (run ++ (closeComment ++ rest))) := rfl
  have h2 : (w1 ++ (validIdsKey ++ (run ++ (closeComment ++ rest)))).dropWhile isWS =
      validIdsKey ++ (run ++ (closeComment ++ rest)) := by
    rw [ekey]
    exact dropWhile_all_append hw1 (by decide) _
  have h3 := stripLit_self_append validIdsKey (run ++ (closeComment ++ rest))
  have ec : closeComment ++ rest = '-' :: ("->".toList ++ rest) := rfl
  have h4 : (run ++ (closeComment ++ rest)).takeWhile isClassChar = run := by
    rw [ec]
    exact takeWhile_all_append hcl (by decide) _
  have h5 : (run ++ (closeComment ++ rest)).dropWhile isClassChar =
      closeComment ++ rest := by
    rw [ec]
    exact dropWhile_all_append hcl (by decide) _
  have h7 := stripLit_self_append closeComment rest
  rw [e]
  simp only [tryValidIdsAt, h1, h2, h3, h4, h5, h7, if_neg hrun]

/-!  ## Span lemmas: appending a fresh identifier comment to a line cannot
create a match that straddles the boundary, because the appended text starts
with a space and none of the regex literals contains a space.  -/

theorem stripLit_space_ext {lit x : List Char} (h : stripLit lit x = none)
    (hsp : ' ' ∉ lit) (z : List Char) : stripLit lit (x ++ ' ' :: z) = none := by
  rcases hc : stripLit lit (x ++ ' ' :: z) with _ | r
  · rfl
  · exfalso
    rcases stripLit_append_cases hc with ⟨r0, hr0, _⟩ | ⟨lit2, hl2, hs2⟩
    · rw [hr0] at h
      exact Option.noConfusion h
    · cases lit2 with
      | nil =>
        rw [List.append_nil] at hl2
        subst hl2
        have h2 := stripLit_self_append lit ([] : List Char)
        rw [List.append_nil] at h2
        rw [h2] at h
        exact Option.noConfusion h
      | cons d lit2t =>
        have hd : d ∈ lit := by
          rw [hl2]
          simp
        have hds : ¬ d = ' ' := fun e => hsp (e ▸ hd)
        rw [stripLit, if_neg hds] at hs2
        exact Option.noConfusion hs2

theorem dropWhile_head_false {p : Char → Bool} {l r : List Char} {c : Char}
    (h : l.dropWhile p = c :: r) : p c = false := by
  induction l with
  | nil => simp [List.dropWhile] at h
  | cons a as ih =>
    rw [List.dropWhile_cons] at h
    split at h
    · exact ih h
    · cases h
      simp_all

theorem noteComment_cons (n : Nat) :
    noteComment n = '<' :: ("!-- noteId:".toList ++ natToChars n ++ " -->".toList) := rfl

theorem dropWhile_ws_app (n : Nat) :
    (' ' :: noteComment n).dropWhile isWS = noteComment n := by
  rw [List.dropWhile_cons_of_pos (by decide), noteComment_cons,
    List.dropWhile_cons_of_neg (by decide)]

theorem tryNoteIdAt_span {t : List Char} (h : tryNoteIdAt t = none) (n : Nat) :
    tryNoteIdAt (t ++ ' ' :: noteComment n) = none := by
  have hsp_open : ' ' ∉ openComment := by decide
  have hsp_key : ' ' ∉ noteIdKey := by decide
  have hsp_close : ' ' ∉ closeComment := by decide
  rcases h1 : stripLit openComment t with _ | t1
  · simp only [tryNoteIdAt, stripLit_space_ext h1 hsp_open]
  · have h1x : stripLit openComment (t ++ ' ' :: noteComment n) =
        some (t1 ++ ' ' :: noteComment n) := stripLit_append_some h1 _
    rcases h2c : t1.dropWhile isWS with _ | ⟨c, t1'⟩
    · have h2x : (t1 ++ ' ' :: noteComment n).dropWhile isWS = noteComment n := by
        rw [List.dropWhile_append, h2c]
        simpa using dropWhile_ws_app n
      have h3x : stripLit noteIdKey (noteComment n) = none := by
        rw [noteComment_cons, show noteIdKey = 'n' :: "oteId:".toList from rfl, stripLit]
        simp
      simp only [tryNoteIdAt, h1x, h2x, h3x]
    · have h2x : (t1 ++ ' ' :: noteComment n).dropWhile isWS =
          (c :: t1') ++ ' ' :: noteComment n := by
        rw [List.dropWhile_append, h2c]
        simp
      rcases h3 : stripLit noteIdKey (c :: t1') with _ | t2
      · simp only [tryNoteIdAt, h1x, h2x, stripLit_space_ext h3 hsp_key]
      · have h3x : stripLit noteIdKey ((c :: t1') ++ ' ' :: noteComment n) =
            some (t2 ++ ' ' :: noteComment n) := stripLit_append_some h3 _
        rcases h4c : t2.dropWhile isDigitChar with _ | ⟨d, t2'⟩
        · have hall : ∀ a ∈ t2, isDigitChar a = true :=
            List.dropWhile_eq_nil_iff.mp h4c
          have h4x : (t2 ++ ' ' :: noteComment n).takeWhile isDigitChar = t2 :=
            takeWhile_all_append hall (by decide) _
          have h5x : (t2 ++ ' ' :: noteComment n).dropWhile isDigitChar =
              ' ' :: noteComment n := dropWhile_all_append hall (by decide) _
          by_cases ht2 : t2 = []
          · simp only [tryNoteIdAt, h1x, h2x, h3x, h4x, if_pos ht2]
          · have h6x : (' ' :: noteComment n).dropWhile isWS = noteComment n :=
              dropWhile_ws_app n
            have h7x : stripLit closeComment (noteComment n) = none := by
              rw [noteComment_cons, show closeComment = '-' :: "->".toList from rfl,
                stripLit]
              simp
            simp only [tryNoteIdAt, h1x, h2x, h3x, h4x, if_neg ht2, h5x, h6x, h7x]
        · have hall : ∀ a ∈ t2.takeWhile isDigitChar, isDigitChar a = true :=
            fun a ha => List.mem_takeWhile_imp ha
          have hd : isDigitChar d = false := dropWhile_head_false h4c
          have hsplit : t2 = t2.takeWhile isDigitChar ++ (d :: t2') := by
            rw [← h4c, List.takeWhile_append_dropWhile]
          have h4x : (t2 ++ ' ' :: noteComment n).takeWhile isDigitChar =
              t2.takeWhile isDigitChar := by
            conv_lhs => rw [hsplit]
            rw [List.append_assoc]
            exact takeWhile_all_append hall hd _
          have h5x : (t2 ++ ' ' :: noteComment n).dropWhile isDigitChar =
              d :: (t2' ++ ' ' :: noteComment n) := by
            conv_lhs => rw [hsplit]
            rw [List.append_assoc]
            exact dropWhile_all_append hall hd _
          by_cases htw : t2.takeWhile isDigitChar = []
          · simp only [tryNoteIdAt, h1x, h2x, h3x, h4x, if_pos htw]
          · have hcons : d :: (t2' ++ ' ' :: noteComment n) =
                (d :: t2') ++ ' ' :: noteComment n := rfl
            rcases h6c : (d :: t2').dropWhile isWS with _ | ⟨e, v⟩
            · have h6x : ((d :: t2') ++ ' ' :: noteComment n).dropWhile isWS =
                  noteComment n := by
                rw [List.dropWhile_append, h6c]
                simpa using dropWhile_ws_app n
              have h7x : stripLit closeComment (noteComment n) = none := by
                rw [noteComment_cons, show closeComment = '-' :: "->".toList from rfl,
                  stripLit]
                simp
              simp only [tryNoteIdAt, h1x, h2x, h3x, h4x, if_neg htw, h5x, hcons, h6x, h7x]
            · have h6x : ((d :: t2') ++ ' ' :: noteComment n).dropWhile isWS =
                  (e :: v) ++ ' ' :: noteComment n := by
                rw [List.dropWhile_append, h6c]
                simp
              rcases h7 : stripLit closeComment (e :: v) with _ | r
              · simp only [tryNoteIdAt, h1x, h2x, h3x, h4x, if_neg htw, h5x, hcons, h6x,
                  stripLit_space_ext h7 hsp_close]
              · exfalso
                have : tryNoteIdAt t = some (t2.takeWhile isDigitChar, r) := by
                  simp only [tryNoteIdAt, h1, h2c, h3, if_neg htw, h4c, h6c, h7]
                rw [this] at h
                exact Option.noConfusion h

theorem stripLit_close_nc (n : Nat) :
    stripLit closeComment (noteComment n) = none := by
  rw [noteComment_cons, show closeComment = '-' :: "->".toList from rfl, stripLit]
  simp

theorem tryValidIdsAt_span {t : List Char} (h : tryValidIdsAt t = none) (n : Nat) :
    tryValidIdsAt (t ++ ' ' :: noteComment n) = none := by
  have hsp_open : ' ' ∉ openComment := by decide
  have hsp_key : ' ' ∉ validIdsKey := by decide
  have hsp_close : ' ' ∉ closeComment := by decide
  rcases h1 : stripLit openComment t with _ | t1
  · simp only [tryValidIdsAt, stripLit_space_ext h1 hsp_open]
  · have h1x : stripLit openComment (t ++ ' ' :: noteComment n) =
        some (t1 ++ ' ' :: noteComment n) := stripLit_append_some h1 _
    rcases h2c : t1.dropWhile isWS with _ | ⟨c, t1'⟩
    · have h2x : (t1 ++ ' ' :: noteComment n).dropWhile isWS = noteComment n := by
        rw [List.dropWhile_append, h2c]
        simpa using dropWhile_ws_app n
      have h3x : stripLit validIdsKey (noteComment n) = none := by
        rw [noteComment_cons, show validIdsKey = 'v' :: "alidNoteIds:".toList from rfl,
          stripLit]
        simp
      simp only [tryValidIdsAt, h1x, h2x, h3x]
    · have h2x : (t1 ++ ' ' :: noteComment n).dropWhile isWS =
          (c :: t1') ++ ' ' :: noteComment n := by
        rw [List.dropWhile_append, h2c]
        simp
      rcases h3 : stripLit validIdsKey (c :: t1') with _ | t2
      · simp only [tryValidIdsAt, h1x, h2x, stripLit_space_ext h3 hsp_key]
      · have h3x : stripLit validIdsKey ((c :: t1') ++ ' ' :: noteComment n) =
            some (t2 ++ ' ' :: noteComment n) := stripLit_append_some h3 _
        rcases h4c : t2.dropWhile isClassChar with _ | ⟨d, t2'⟩
        · have hall : ∀ a ∈ t2, isClassChar a = true :=
            List.dropWhile_eq_nil_iff.mp h4c
          have hnc1 : (noteComment n).takeWhile isClassChar = [] := by
            rw [noteComment_cons, List.takeWhile_cons_of_neg (by decide)]
          have h4x : (t2 ++ ' ' :: noteComment n).takeWhile isClassChar =
              t2 ++ [' '] := by
            rw [List.takeWhile_append_of_pos hall,
              List.takeWhile_cons_of_pos (by decide), hnc1]
          have hnc2 : (noteComment n).dropWhile isClassChar = noteComment n := by
            rw [noteComment_cons, List.dropWhile_cons_of_neg (by decide)]
          have h5x : (t2 ++ ' ' :: noteComment n).dropWhile isClassChar =
              noteComment n := by
            rw [List.dropWhile_append]
            rw [h4c]
            rw [List.isEmpty_nil, if_pos rfl, List.dropWhile_cons_of_pos (by decide),
              hnc2]
          have hne : ¬ (t2 ++ [' '] = []) := by simp
          simp only [tryValidIdsAt, h1x, h2x, h3x, h4x, h5x, if_neg hne,
            stripLit_close_nc]
        · have hall : ∀ a ∈ t2.takeWhile isClassChar, isClassChar a = true :=
            fun a ha => List.mem_takeWhile_imp ha
          have hd : isClassChar d = false := dropWhile_head_false h4c
          have hsplit : t2 = t2.takeWhile isClassChar ++ (d :: t2') := by
            rw [← h4c, List.takeWhile_append_dropWhile]
          have h4x : (t2 ++ ' ' :: noteComment n).takeWhile isClassChar =
              t2.takeWhile isClassChar := by
            conv_lhs => rw [hsplit]
            rw [List.append_assoc]
            exact takeWhile_all_append hall hd _
          have h5x : (t2 ++ ' ' :: noteComment n).dropWhile isClassChar =
              d :: (t2' ++ ' ' :: noteComment n) := by
            conv_lhs => rw [hsplit]
            rw [List.append_assoc]
            exact dropWhile_all_append hall hd _
          by_cases htw : t2.takeWhile isClassChar = []
          · simp only [tryValidIdsAt, h1x, h2x, h3x, h4x, if_pos htw]
          · have hcons : d :: (t2' ++ ' ' :: noteComment n) =
                (d :: t2') ++ ' ' :: noteComment n := rfl
            rcases h7 : stripLit closeComment (d :: t2') with _ | r
            · simp only [tryValidIdsAt, h1x, h2x, h3x, h4x, if_neg htw, h5x, hcons,
                stripLit_space_ext h7 hsp_close]
            · exfalso
              have : tryValidIdsAt t =
                  some (captureOf (t2.takeWhile isClassChar), r) := by
                simp only [tryValidIdsAt, h1, h2c, h3, if_neg htw, h4c, h7]
              rw [this] at h
              exact Option.noConfusion h

/-!  ## Scanning lemmas  -/

theorem findNoteIdSplit_cons_none {c : Char} {cs : List Char}
    (h : findNoteIdSplit (c :: cs) = none) :
    tryNoteIdAt (c :: cs) = none ∧ findNoteIdSplit cs = none := by
  rcases h1 : tryNoteIdAt (c :: cs) with _ | p
  · rcases h2 : findNoteIdSplit cs with _ | q
    · exact ⟨rfl, rfl⟩
    · exfalso
      obtain ⟨pre, ds, rest⟩ := q
      rw [findNoteIdSplit, h1, h2] at h
      exact Option.noConfusion h
  · exfalso
    obtain ⟨ds, rest⟩ := p
    rw [findNoteIdSplit, h1] at h
    exact Option.noConfusion h

theorem findNoteIdSplit_append_none {x y : List Char}
    (h : findNoteIdSplit (x ++ y) = none) : findNoteIdSplit y = none := by
  induction x with
  | nil => simpa using h
  | cons a x' ih => exact ih (findNoteIdSplit_cons_none h).2

theorem noteComment_decomp (n : Nat) :
    noteComment n =
      openComment ++ [' '] ++ noteIdKey ++ natToChars n ++ [' '] ++ closeComment ++ [] := by
  rw [noteComment,
    show "<!-- noteId:".toList = (openComment ++ [' ']) ++ noteIdKey from by decide,
    show " -->".toList = [' '] ++ closeComment from by decide]
  simp [List.append_assoc]

theorem tryNoteIdAt_nc (n : Nat) :
    tryNoteIdAt (noteComment n) = some (natToChars n, []) := by
  rw [noteComment_decomp]
  exact tryNoteIdAt_construct
    (fun a ha => by simp at ha; subst ha; decide)
    (fun a ha => by simp at ha; subst ha; decide)
    (natToChars_ne_nil n) (fun a ha => mem_natToChars_digit ha) []

theorem findNoteIdSplit_append_comment {l : List Char}
    (h : findNoteIdSplit l = none) (n : Nat) :
    findNoteIdSplit (l ++ ' ' :: noteComment n) =
      some (l ++ [' '], natToChars n, []) := by
  induction l with
  | nil =>
    have h0 : tryNoteIdAt (' ' :: noteComment n) = none := by
      simp only [tryNoteIdAt,
        show stripLit openComment (' ' :: noteComment n) = none from by
          rw [show openComment = '<' :: "!--".toList from rfl, stripLit]
          simp]
    have h1 : tryNoteIdAt ('<' :: ("!-- noteId:".toList ++ natToChars n ++
        " -->".toList)) = some (natToChars n, []) := by
      rw [← noteComment_cons]
      exact tryNoteIdAt_nc n
    have h2 : findNoteIdSplit (noteComment n) = some ([], natToChars n, []) := by
      rw [noteComment_cons]
      simp only [findNoteIdSplit, h1]
    rw [List.nil_append, findNoteIdSplit, h0, h2]
    rfl
  | cons a l' ih =>
    have hc := findNoteIdSplit_cons_none h
    have hspan : tryNoteIdAt (a :: (l' ++ ' ' :: noteComment n)) = none := by
      have := tryNoteIdAt_span hc.1 n
      simpa using this
    rw [List.cons_append, findNoteIdSplit, hspan, ih hc.2]
    rfl

theorem findValidCapture_cons_none {c : Char} {cs : List Char}
    (h : findValidCapture (c :: cs) = none) :
    tryValidIdsAt (c :: cs) = none ∧ findValidCapture cs = none := by
  rcases h1 : tryValidIdsAt (c :: cs) with _ | p
  · rcases h2 : findValidCapture cs with _ | q
    · exact ⟨rfl, rfl⟩
    · exfalso
      rw [findValidCapture, h1, h2] at h
      exact Option.noConfusion h
  · exfalso
    obtain ⟨cap, rest⟩ := p
    rw [findValidCapture, h1] at h
    exact Option.noConfusion h

theorem findValidCapture_no_lt {m : List Char} (h : ∀ c ∈ m, ¬ c = '<') :
    findValidCapture m = none := by
  induction m with
  | nil => rfl
  | cons c m' ih =>
    have h1 : tryValidIdsAt (c :: m') = none := by
      simp only [tryValidIdsAt,
        show stripLit openComment (c :: m') = none from by
          rw [show openComment = '<' :: "!--".toList from rfl, stripLit,
            if_neg (fun e => h c (by simp) e.symm)]]
    rw [findValidCapture, h1]
    exact ih (fun x hx => h x (by simp [hx]))

theorem tryValidIdsAt_nc (n : Nat) : tryValidIdsAt (noteComment n) = none := by
  have e : noteComment n =
      openComment ++ (' ' :: ("noteId:".toList ++ (natToChars n ++ " -->".toList))) := by
    rw [noteComment,
      show "<!-- noteId:".toList = openComment ++ (' ' :: "noteId:".toList) from by decide]
    simp [List.append_assoc]
  have h1 : stripLit openComment (noteComment n) =
      some (' ' :: ("noteId:".toList ++ (natToChars n ++ " -->".toList))) := by
    rw [e]
    exact stripLit_self_append _ _
  have h2 : (' ' :: ("noteId:".toList ++ (natToChars n ++ " -->".toList))).dropWhile
      isWS = "noteId:".toList ++ (natToChars n ++ " -->".toList) := by
    rw [List.dropWhile_cons_of_pos (by decide),
      show "noteId:".toList ++ (natToChars n ++ " -->".toList) =
        'n' :: ("oteId:".toList ++ (natToChars n ++ " -->".toList)) from rfl,
      List.dropWhile_cons_of_neg (by decide)]
  have h3 : stripLit validIdsKey
      ("noteId:".toList ++ (natToChars n ++ " -->".toList)) = none := by
    rw [show validIdsKey = 'v' :: "alidNoteIds:".toList from rfl,
      show "noteId:".toList ++ (natToChars n ++ " -->".toList) =
        'n' :: ("oteId:".toList ++ (natToChars n ++ " -->".toList)) from rfl,
      stripLit]
    simp
  simp only [tryValidIdsAt, h1, h2, h3]

theorem findValidCapture_nc (n : Nat) : findValidCapture (noteComment n) = none := by
  have h1 : tryValidIdsAt ('<' :: ("!-- noteId:".toList ++ natToChars n ++
      " -->".toList)) = none := by
    rw [← noteComment_cons]
    exact tryValidIdsAt_nc n
  rw [noteComment_cons, findValidCapture, h1]
  refine findValidCapture_no_lt ?_
  intro c hc
  simp only [List.mem_append] at hc
  rcases hc with (hc | hc) | hc
  · fin_cases hc <;> decide
  · have hd := mem_natToChars_digit hc
    intro e
    rw [e] at hd
    exact absurd hd (by decide)
  · fin_cases hc <;> decide

theorem findValidCapture_append_comment {l : List Char}
    (h : findValidCapture l = none) (n : Nat) :
    findValidCapture (l ++ ' ' :: noteComment n) = none := by
  induction l with
  | nil =>
    have h0 : tryValidIdsAt (' ' :: noteComment n) = none := by
      simp only [tryValidIdsAt,
        show stripLit openComment (' ' :: noteComment n) = none from by
          rw [show openComment = '<' :: "!--".toList from rfl, stripLit]
          simp]
    simp only [List.nil_append, findValidCapture, h0]
    exact findValidCapture_nc n
  | cons a l' ih =>
    have hc := findValidCapture_cons_none h
    have hspan : tryValidIdsAt (a :: (l' ++ ' ' :: noteComment n)) = none := by
      have := tryValidIdsAt_span hc.1 n
      simpa using this
    rw [List.cons_append, findValidCapture, hspan]
    exact ih hc.2

theorem testValidIds_append_comment {l : List Char}
    (h : testValidIds l = false) (n : Nat) :
    testValidIds (l ++ ' ' :: noteComment n) = false := by
  unfold testValidIds at h ⊢
  rcases hf : findValidCapture l with _ | cap
  · rw [findValidCapture_append_comment hf n]
    rfl
  · rw [hf] at h
    simp at h

/-!  ## Delimiter, trim and annotation-line facts  -/

theorem splitDelim_decomp {s p q : List Char} (h : splitDelim s = some (p, q)) :
    s = p ++ cardDelim ++ q := by
  induction s generalizing p q with
  | nil => simp [splitDelim] at h
  | cons c cs ih =>
    rcases h1 : stripLit cardDelim (c :: cs) with _ | r
    · rw [splitDelim, h1] at h
      rcases h2 : splitDelim cs with _ | pq
      · rw [h2] at h
        exact Option.noConfusion h
      · obtain ⟨p', q'⟩ := pq
        rw [h2] at h
        cases h
        rw [ih h2]
        simp
    · rw [splitDelim, h1] at h
      cases h
      simpa using stripLit_eq_some.mp h1

theorem splitDelim_append {s p q : List Char} (h : splitDelim s = some (p, q))
    (y : List Char) : splitDelim (s ++ y) = some (p, q ++ y) := by
  induction s generalizing p with
  | nil => simp [splitDelim] at h
  | cons c cs ih =>
    rcases h1 : stripLit cardDelim (c :: cs) with _ | r
    · rw [splitDelim, h1] at h
      rcases h2 : splitDelim cs with _ | pq
      · rw [h2] at h
        exact Option.noConfusion h
      · obtain ⟨p', q'⟩ := pq
        rw [h2] at h
        cases h
        have hlen : cardDelim.length ≤ (c :: cs).length := by
          have := splitDelim_decomp h2
          simp [this, cardDelim]
          omega
        have h1x : stripLit cardDelim ((c :: cs) ++ y) = none :=
          stripLit_none_long h1 hlen y
        rw [List.cons_append] at h1x ⊢
        rw [splitDelim, h1x, ih h2]
    · rw [splitDelim, h1] at h
      cases h
      rw [List.cons_append, splitDelim,
        show stripLit cardDelim (c :: (cs ++ y)) = some (q ++ y) from by
          have := stripLit_append_some h1 y
          simpa using this]

theorem trim_append_space (x : List Char) : trim (x ++ [' ']) = trim x := by
  unfold trim
  rw [List.dropWhile_append]
  rcases hd : x.dropWhile isWS with _ | ⟨c, d⟩
  · simp [show ([' '] : List Char).dropWhile isWS = [] from by decide]
  · simp only [List.isEmpty_cons, Bool.false_eq_true, if_false]
    rw [show (c :: d) ++ [' '] = (c :: d) ++ [' '] from rfl, List.reverse_append]
    simp only [List.reverse_cons, List.reverse_nil, List.nil_append,
      List.singleton_append]
    rw [List.dropWhile_cons_of_pos (by decide)]

theorem removeNoteId_of_none {s : List Char} (h : findNoteIdSplit s = none) :
    removeNoteId s = s := by
  rw [removeNoteId, h]

theorem removeNoteId_append_comment {post : List Char}
    (h : findNoteIdSplit post = none) (n : Nat) :
    removeNoteId (post ++ ' ' :: noteComment n) = post ++ [' '] := by
  rw [removeNoteId, findNoteIdSplit_append_comment h n]
  simp

theorem mem_idsJoin_class {acc : List Nat} {c : Char}
    (h : c ∈ joinSep [','] (acc.map natToChars)) : isClassChar c = true := by
  rcases mem_joinSep h with h | ⟨l, hl, hcl⟩
  · simp at h
    subst h
    decide
  · simp only [List.mem_map] at hl
    obtain ⟨a, _, rfl⟩ := hl
    exact digit_isClass (mem_natToChars_digit hcl)

theorem newline_not_mem_idsJoin {acc : List Nat} :
    ¬ '\n' ∈ joinSep [','] (acc.map natToChars) := by
  intro h
  rcases mem_joinSep h with h | ⟨l, hl, hcl⟩
  · have hne : ('\n' : Char) ≠ ',' := by decide
    simp only [List.mem_singleton] at h
    exact hne h
  · obtain ⟨a, _, rfl⟩ := List.mem_map.mp hl
    have hd := mem_natToChars_digit hcl
    revert hd
    decide

theorem newline_not_mem_validLine (acc : List Nat) : ¬ '\n' ∈ validLine acc := by
  intro h
  unfold validLine at h
  simp only [List.mem_append] at h
  rcases h with (h | h) | h
  · exact absurd h (by decide)
  · exact newline_not_mem_idsJoin h
  · exact absurd h (by decide)

theorem count_colon_validLine (acc : List Nat) : (validLine acc).count ':' = 1 := by
  unfold validLine
  rw [List.count_append, List.count_append]
  have h1 : ("<!-- validNoteIds: ".toList).count ':' = 1 := by decide
  have h2 : (" -->".toList).count ':' = 0 := by decide
  have h3 : (joinSep [','] (acc.map natToChars)).count ':' = 0 := by
    rw [List.count_eq_zero]
    intro hmem
    have := mem_idsJoin_class hmem
    revert this
    decide
  omega

theorem splitDelim_validLine (acc : List Nat) : splitDelim (validLine acc) = none := by
  rcases h : splitDelim (validLine acc) with _ | pq
  · rfl
  · exfalso
    obtain ⟨p, q⟩ := pq
    have hd := splitDelim_decomp h
    have hcount := count_colon_validLine acc
    rw [hd, List.count_append, List.count_append,
      show cardDelim.count ':' = 3 from by decide] at hcount
    omega

theorem pushId_validLine (acc : List Nat) : pushId (validLine acc) = none := by
  rw [pushId, splitDelim_validLine]

theorem validLine_cons (acc : List Nat) :
    validLine acc = '<' :: ("!-- validNoteIds: ".toList ++
      joinSep [','] (acc.map natToChars) ++ " -->".toList) := rfl

theorem validLine_decomp (acc : List Nat) :
    validLine acc = openComment ++ [' '] ++ validIdsKey ++
      (' ' :: (joinSep [','] (acc.map natToChars) ++ [' '])) ++ closeComment ++ [] := by
  rw [validLine,
    show "<!-- validNoteIds: ".toList =
      openComment ++ [' '] ++ validIdsKey ++ [' '] from by decide,
    show " -->".toList = [' '] ++ closeComment from by decide]
  simp [List.append_assoc]

theorem tryValidIdsAt_validLine (acc : List Nat) :
    tryValidIdsAt (validLine acc) =
      some (captureOf (' ' :: (joinSep [','] (acc.map natToChars) ++ [' '])), []) := by
  rw [validLine_decomp]
  refine tryValidIdsAt_construct (fun a ha => by simp at ha; subst ha; decide)
    (by simp) ?_ []
  intro a ha
  simp only [List.mem_cons, List.mem_append] at ha
  rcases ha with ha | ha | ha
  · subst ha
    decide
  · exact mem_idsJoin_class ha
  · simp at ha
    subst ha
    decide

theorem testValidIds_validLine (acc : List Nat) :
    testValidIds (validLine acc) = true := by
  rw [testValidIds, validLine_cons, findValidCapture,
    show tryValidIdsAt ('<' :: ("!-- validNoteIds: ".toList ++
      joinSep [','] (acc.map natToChars) ++ " -->".toList)) =
      some (captureOf (' ' :: (joinSep [','] (acc.map natToChars) ++ [' '])), [])
      from by rw [← validLine_cons]; exact tryValidIdsAt_validLine acc]
  rfl

/-!  ## Step lemmas for the record loop  -/

theorem processLines_nil (st : AnkiStore) (s : SyncState) :
    processLines st [] s = ([], s, none) := rfl

theorem processLines_cons_nodelim {line : List Char} (st : AnkiStore)
    (h : splitDelim line = none) (rest : List (List Char)) (s : SyncState) :
    processLines st (line :: rest) s =
      (line :: (processLines st rest s).1, (processLines st rest s).2) := by
  simp only [processLines, h]

theorem processLines_cons_empty {line pre post : List Char} (st : AnkiStore)
    (h : splitDelim line = some (pre, post))
    (he : trim pre = [] ∨ trim (removeNoteId post) = [])
    (rest : List (List Char)) (s : SyncState) :
    processLines st (line :: rest) s =
      (line :: (processLines st rest s).1, (processLines st rest s).2) := by
  simp only [processLines, h]
  rw [if_pos he]

theorem processLines_cons_update_ok {line pre post ds : List Char} (st : AnkiStore)
    {s : SyncState} (h : splitDelim line = some (pre, post))
    (hne : ¬(trim pre = [] ∨ trim (removeNoteId post) = []))
    (hid : findNoteIdDigits line = some ds)
    (hup : st.updateNote s.k (digitsToNat ds) (trim pre) (trim (removeNoteId post)) =
      Except.ok ())
    (rest : List (List Char)) :
    processLines st (line :: rest) s =
      (line :: (processLines st rest
          ⟨s.k + 1, s.acc ++ [digitsToNat ds],
            s.log ++ [StoreCall.update (digitsToNat ds) (trim pre)
              (trim (removeNoteId post))]⟩).1,
        (processLines st rest
          ⟨s.k + 1, s.acc ++ [digitsToNat ds],
            s.log ++ [StoreCall.update (digitsToNat ds) (trim pre)
              (trim (removeNoteId post))]⟩).2) := by
  simp only [processLines, h, hid, hup]
  rw [if_neg hne]

theorem processLines_cons_update_err {line pre post ds m : List Char} (st : AnkiStore)
    {s : SyncState} (h : splitDelim line = some (pre, post))
    (hne : ¬(trim pre = [] ∨ trim (removeNoteId post) = []))
    (hid : findNoteIdDigits line = some ds)
    (hup : st.updateNote s.k (digitsToNat ds) (trim pre) (trim (removeNoteId post)) =
      Except.error m)
    (rest : List (List Char)) :
    processLines st (line :: rest) s =
      (line :: rest,
        ⟨s.k + 1, s.acc, s.log ++ [StoreCall.update (digitsToNat ds) (trim pre)
          (trim (removeNoteId post))]⟩, some m) := by
  simp only [processLines, h, hid, hup]
  rw [if_neg hne]

theorem processLines_cons_add_ok {line pre post : List Char} {newId : Nat}
    (st : AnkiStore) {s : SyncState} (h : splitDelim line = some (pre, post))
    (hne : ¬(trim pre = [] ∨ trim (removeNoteId post) = []))
    (hid : findNoteIdDigits line = none)
    (hadd : st.addNote s.k (trim pre) (trim (removeNoteId post)) = Except.ok newId)
    (rest : List (List Char)) :
    processLines st (line :: rest) s =
      ((line ++ (' ' :: noteComment newId)) :: (processLines st rest
          ⟨s.k + 1, s.acc ++ [newId],
            s.log ++ [StoreCall.add (trim pre) (trim (removeNoteId post))]⟩).1,
        (processLines st rest
          ⟨s.k + 1, s.acc ++ [newId],
            s.log ++ [StoreCall.add (trim pre) (trim (removeNoteId post))]⟩).2) := by
  simp only [processLines, h, hid, hadd]
  rw [if_neg hne]

theorem processLines_cons_add_dup {line pre post m : List Char} (st : AnkiStore)
    {s : SyncState} (h : splitDelim line = some (pre, post))
    (hne : ¬(trim pre = [] ∨ trim (removeNoteId post) = []))
    (hid : findNoteIdDigits line = none)
    (hadd : st.addNote s.k (trim pre) (trim (removeNoteId post)) = Except.error m)
    (hdup : isDupMsg m = true) (rest : List (List Char)) :
    processLines st (line :: rest) s =
      (line :: (processLines st rest
          ⟨s.k + 1, s.acc,
            s.log ++ [StoreCall.add (trim pre) (trim (removeNoteId post))]⟩).1,
        (processLines st rest
          ⟨s.k + 1, s.acc,
            s.log ++ [StoreCall.add (trim pre) (trim (removeNoteId post))]⟩).2) := by
  simp only [processLines, h, hid, hadd]
  rw [if_neg hne, if_pos hdup]

theorem processLines_cons_add_err {line pre post m : List Char} (st : AnkiStore)
    {s : SyncState} (h : splitDelim line = some (pre, post))
    (hne : ¬(trim pre = [] ∨ trim (removeNoteId post) = []))
    (hid : findNoteIdDigits line = none)
    (hadd : st.addNote s.k (trim pre) (trim (removeNoteId post)) = Except.error m)
    (hdup : isDupMsg m = false) (rest : List (List Char)) :
    processLines st (line :: rest) s =
      (line :: rest,
        ⟨s.k + 1, s.acc,
          s.log ++ [StoreCall.add (trim pre) (trim (removeNoteId post))]⟩, some m) := by
  simp only [processLines, h, hid, hadd]
  rw [if_neg hne, if_neg (by rw [hdup]; exact Bool.false_ne_true)]

/-!  ## Structure of the record loop  -/

theorem findNoteIdDigits_none_iff {s : List Char} :
    findNoteIdDigits s = none ↔ findNoteIdSplit s = none := by
  cases h : findNoteIdSplit s <;> simp [findNoteIdDigits, h]

theorem pushId_of_update {line pre post ds : List Char}
    (h : splitDelim line = some (pre, post))
    (hne : ¬(trim pre = [] ∨ trim (removeNoteId post) = []))
    (hid : findNoteIdDigits line = some ds) :
    pushId line = some (digitsToNat ds) := by
  simp only [pushId, h, hid]
  rw [if_neg hne]
  rfl

theorem pushId_of_noid {line pre post : List Char}
    (h : splitDelim line = some (pre, post))
    (hid : findNoteIdDigits line = none) :
    pushId line = none := by
  simp only [pushId, h, hid]
  split <;> simp

theorem pushId_of_nodelim {line : List Char} (h : splitDelim line = none) :
    pushId line = none := by
  simp only [pushId, h]

theorem pushId_of_empty {line pre post : List Char}
    (h : splitDelim line = some (pre, post))
    (he : trim pre = [] ∨ trim (removeNoteId post) = []) :
    pushId line = none := by
  simp only [pushId, h]
  rw [if_pos he]

theorem annotated_facts {line pre post : List Char}
    (h : splitDelim line = some (pre, post))
    (hne : ¬(trim pre = [] ∨ trim (removeNoteId post) = []))
    (hid : findNoteIdDigits line = none) (n : Nat) :
    splitDelim (line ++ ' ' :: noteComment n) = some (pre, post ++ ' ' :: noteComment n) ∧
    trim (removeNoteId (post ++ ' ' :: noteComment n)) = trim (removeNoteId post) ∧
    findNoteIdDigits (line ++ ' ' :: noteComment n) = some (natToChars n) ∧
    pushId (line ++ ' ' :: noteComment n) = some n := by
  have hfs : findNoteIdSplit line = none := findNoteIdDigits_none_iff.mp hid
  have hpost : findNoteIdSplit post = none := by
    have hdec := splitDelim_decomp h
    refine findNoteIdSplit_append_none (x := pre ++ cardDelim) ?_
    rw [← hdec]
    exact hfs
  have h1 : splitDelim (line ++ ' ' :: noteComment n) =
      some (pre, post ++ ' ' :: noteComment n) := splitDelim_append h _
  have h2 : trim (removeNoteId (post ++ ' ' :: noteComment n)) =
      trim (removeNoteId post) := by
    rw [removeNoteId_append_comment hpost n, removeNoteId_of_none hpost,
      trim_append_space]
  have h3 : findNoteIdDigits (line ++ ' ' :: noteComment n) = some (natToChars n) := by
    rw [findNoteIdDigits, findNoteIdSplit_append_comment hfs n]
    rfl
  refine ⟨h1, h2, h3, ?_⟩
  simp only [pushId, h1, h3]
  rw [if_neg (by rw [h2]; exact hne)]
  simp [digitsToNat_natToChars]

/-- Processing one line either passes through to the rest of the loop with an
adjusted state and a possibly annotated line, or aborts. -/
theorem processLines_cons_shape (st : AnkiStore) (line : List Char) (s : SyncState) :
    (∃ line2 s2, ∀ rest, processLines st (line :: rest) s =
        (line2 :: (processLines st rest s2).1, (processLines st rest s2).2)) ∨
    (∃ s2 m, ∀ rest, processLines st (line :: rest) s = (line :: rest, s2, some m)) := by
  rcases hd : splitDelim line with _ | ⟨pre, post⟩
  · exact Or.inl ⟨line, s, fun rest => processLines_cons_nodelim st hd rest s⟩
  · by_cases he : trim pre = [] ∨ trim (removeNoteId post) = []
    · exact Or.inl ⟨line, s, fun rest => processLines_cons_empty st hd he rest s⟩
    · rcases hid : findNoteIdDigits line with _ | ds
      · rcases hadd : st.addNote s.k (trim pre) (trim (removeNoteId post)) with m | newId
        · rcases hdup : isDupMsg m with _ | _
          · exact Or.inr ⟨_, m, fun rest =>
              processLines_cons_add_err st hd he hid hadd hdup rest⟩
          · exact Or.inl ⟨line, _, fun rest =>
              processLines_cons_add_dup st hd he hid hadd hdup rest⟩
        · exact Or.inl ⟨line ++ (' ' :: noteComment newId), _, fun rest =>
            processLines_cons_add_ok st hd he hid hadd rest⟩
      · rcases hup : st.updateNote s.k (digitsToNat ds) (trim pre)
            (trim (removeNoteId post)) with m | u
        · exact Or.inr ⟨_, m, fun rest =>
            processLines_cons_update_err st hd he hid hup rest⟩
        · cases u
          exact Or.inl ⟨line, _, fun rest =>
            processLines_cons_update_ok st hd he hid hup rest⟩

theorem processLines_append (st : AnkiStore) (A B : List (List Char)) :
    ∀ s : SyncState,
    (∃ A' s' m, processLines st A s = (A', s', some m) ∧
      processLines st (A ++ B) s = (A' ++ B, s', some m)) ∨
    (∃ A' s', processLines st A s = (A', s', none) ∧
      processLines st (A ++ B) s =
        (A' ++ (processLines st B s').1, (processLines st B s').2)) := by
  induction A with
  | nil =>
    intro s
    right
    exact ⟨[], s, rfl, by simp [processLines_nil]⟩
  | cons line A ih =>
    intro s
    rcases processLines_cons_shape st line s with ⟨l2, s2, hsh⟩ | ⟨s2, m, hsh⟩
    · rcases ih s2 with ⟨A', s', m, hA, hAB⟩ | ⟨A', s', hA, hAB⟩
      · left
        refine ⟨l2 :: A', s', m, ?_, ?_⟩
        · rw [hsh A, hA]
        · rw [List.cons_append, hsh (A ++ B), hAB]
          rfl
      · right
        refine ⟨l2 :: A', s', ?_, ?_⟩
        · rw [hsh A, hA]
        · rw [List.cons_append, hsh (A ++ B), hAB]
          rfl
    · left
      refine ⟨line :: A, s2, m, ?_, ?_⟩
      · rw [hsh A]
      · rw [List.cons_append, hsh (A ++ B)]

theorem isCandidate_of_record {line pre post : List Char}
    (h : splitDelim line = some (pre, post))
    (hne : ¬(trim pre = [] ∨ trim (removeNoteId post) = [])) :
    isCandidate line = true := by
  simp only [isCandidate, h]
  rw [if_neg hne]

theorem isCandidate_nodelim {line : List Char} (h : splitDelim line = none) :
    isCandidate line = false := by
  simp only [isCandidate, h]

theorem isCandidate_empty {line pre post : List Char}
    (h : splitDelim line = some (pre, post))
    (he : trim pre = [] ∨ trim (removeNoteId post) = []) :
    isCandidate line = false := by
  simp only [isCandidate, h]
  rw [if_pos he]

/-- The relation between an input line and the line the loop leaves behind:
either untouched, or a freshly annotated flashcard line. -/
def LineRel (l l' : List Char) : Prop :=
  l' = l ∨ ∃ n, findNoteIdDigits l = none ∧ isCandidate l = true ∧
    l' = l ++ ' ' :: noteComment n

/-- Characterization of a completed (no-throw) run of the record loop:
the accumulator collects `pushId` over the output lines, the log grows by
exactly one record call per candidate line, and each line is untouched or
annotated. -/
theorem processLines_ok_spec (st : AnkiStore) :
    ∀ (ls : List (List Char)) (s : SyncState) (ls' : List (List Char))
      (s' : SyncState), processLines st ls s = (ls', s', none) →
    s'.acc = s.acc ++ ls'.filterMap pushId ∧
    (∃ newLog, s'.log = s.log ++ newLog ∧ (∀ c ∈ newLog, isRecordCall c = true) ∧
      newLog.length = (ls.filter isCandidate).length) ∧
    List.Forall₂ LineRel ls ls' := by
  intro ls
  induction ls with
  | nil =>
    intro s ls' s' h
    rw [processLines_nil] at h
    injection h with h1 h23
    injection h23 with h2 h3
    subst h1
    subst h2
    exact ⟨by simp, ⟨[], by simp, by simp, by simp⟩, List.Forall₂.nil⟩
  | cons line rest ih =>
    intro s ls' s' h
    rcases hd : splitDelim line with _ | ⟨pre, post⟩
    · rcases hR : processLines st rest s with ⟨R1, Rs, Re⟩
      rw [processLines_cons_nodelim st hd rest s, hR] at h
      injection h with h1 h23
      injection h23 with h2 h3
      subst h1
      subst h2
      subst h3
      obtain ⟨ha, ⟨newLog, hlog, hrec, hlen⟩, hrel⟩ := ih s R1 Rs hR
      refine ⟨?_, ⟨newLog, hlog, hrec, ?_⟩, List.Forall₂.cons (Or.inl rfl) hrel⟩
      · rw [ha, List.filterMap_cons, pushId_of_nodelim hd]
      · rw [hlen, List.filter_cons, isCandidate_nodelim hd]
        simp
    · by_cases he : trim pre = [] ∨ trim (removeNoteId post) = []
      · rcases hR : processLines st rest s with ⟨R1, Rs, Re⟩
        rw [processLines_cons_empty st hd he rest s, hR] at h
        injection h with h1 h23
        injection h23 with h2 h3
        subst h1
        subst h2
        subst h3
        obtain ⟨ha, ⟨newLog, hlog, hrec, hlen⟩, hrel⟩ := ih s R1 Rs hR
        refine ⟨?_, ⟨newLog, hlog, hrec, ?_⟩, List.Forall₂.cons (Or.inl rfl) hrel⟩
        · rw [ha, List.filterMap_cons, pushId_of_empty hd he]
        · rw [hlen, List.filter_cons, isCandidate_empty hd he]
          simp
      · rcases hid : findNoteIdDigits line with _ | ds
        · rcases hadd : st.addNote s.k (trim pre) (trim (removeNoteId post))
              with m | newId
          · rcases hdup : isDupMsg m with _ | _
            · rw [processLines_cons_add_err st hd he hid hadd hdup rest] at h
              injection h with h1 h23
              injection h23 with h2 h3
              exact Option.noConfusion h3
            · rcases hR : processLines st rest
                  ⟨s.k + 1, s.acc,
                    s.log ++ [StoreCall.add (trim pre) (trim (removeNoteId post))]⟩
                  with ⟨R1, Rs, Re⟩
              rw [processLines_cons_add_dup st hd he hid hadd hdup rest, hR] at h
              injection h with h1 h23
              injection h23 with h2 h3
              subst h1
              subst h2
              subst h3
              obtain ⟨ha, ⟨newLog, hlog, hrec, hlen⟩, hrel⟩ := ih _ R1 Rs hR
              refine ⟨?_,
                ⟨StoreCall.add (trim pre) (trim (removeNoteId post)) :: newLog, ?_,
                  ?_, ?_⟩,
                List.Forall₂.cons (Or.inl rfl) hrel⟩
              · rw [ha, List.filterMap_cons, pushId_of_noid hd hid]
              · rw [hlog]
                simp
              · intro c hc
                rcases List.mem_cons.mp hc with hc | hc
                · subst hc
                  rfl
                · exact hrec c hc
              · rw [List.filter_cons, isCandidate_of_record hd he]
                simp [hlen]
          · rcases hR : processLines st rest
                ⟨s.k + 1, s.acc ++ [newId],
                  s.log ++ [StoreCall.add (trim pre) (trim (removeNoteId post))]⟩
                with ⟨R1, Rs, Re⟩
            rw [processLines_cons_add_ok st hd he hid hadd rest, hR] at h
            injection h with h1 h23
            injection h23 with h2 h3
            subst h1
            subst h2
            subst h3
            obtain ⟨ha, ⟨newLog, hlog, hrec, hlen⟩, hrel⟩ := ih _ R1 Rs hR
            obtain ⟨ha1, ha2, ha3, hpush⟩ := annotated_facts hd he hid newId
            refine ⟨?_,
              ⟨StoreCall.add (trim pre) (trim (removeNoteId post)) :: newLog, ?_,
                ?_, ?_⟩,
              List.Forall₂.cons (Or.inr ⟨newId, hid, isCandidate_of_record hd he,
                rfl⟩) hrel⟩
            · rw [ha, List.filterMap_cons, hpush]
              simp
            · rw [hlog]
              simp
            · intro c hc
              rcases List.mem_cons.mp hc with hc | hc
              · subst hc
                rfl
              · exact hrec c hc
            · rw [List.filter_cons, isCandidate_of_record hd he]
              simp [hlen]
        · rcases hup : st.updateNote s.k (digitsToNat ds) (trim pre)
              (trim (removeNoteId post)) with m | u
          · rw [processLines_cons_update_err st hd he hid hup rest] at h
            injection h with h1 h23
            injection h23 with h2 h3
            exact Option.noConfusion h3
          · cases u
            rcases hR : processLines st rest
                ⟨s.k + 1, s.acc ++ [digitsToNat ds],
                  s.log ++ [StoreCall.update (digitsToNat ds) (trim pre)
                    (trim (removeNoteId post))]⟩
                with ⟨R1, Rs, Re⟩
            rw [processLines_cons_update_ok st hd he hid hup rest, hR] at h
            injection h with h1 h23
            injection h23 with h2 h3
            subst h1
            subst h2
            subst h3
            obtain ⟨ha, ⟨newLog, hlog, hrec, hlen⟩, hrel⟩ := ih _ R1 Rs hR
            refine ⟨?_,
              ⟨StoreCall.update (digitsToNat ds) (trim pre)
                  (trim (removeNoteId post)) :: newLog, ?_, ?_, ?_⟩,
              List.Forall₂.cons (Or.inl rfl) hrel⟩
            · rw [ha, List.filterMap_cons, pushId_of_update hd he hid]
              simp
            · rw [hlog]
              simp
            · intro c hc
              rcases List.mem_cons.mp hc with hc | hc
              · subst hc
                rfl
              · exact hrec c hc
            · rw [List.filter_cons, isCandidate_of_record hd he]
              simp [hlen]

/-- Under a store whose updates all succeed and whose adds are all rejected
as duplicates, the record loop leaves every line unchanged, throws nothing,
and accumulates exactly the `pushId` of each line. -/
theorem processLines_stable (st : AnkiStore)
    (hU : ∀ k i f b, st.updateNote k i f b = Except.ok ())
    (hA : ∀ k f b, ∃ m, st.addNote k f b = Except.error m ∧ isDupMsg m = true) :
    ∀ (ls : List (List Char)) (s : SyncState),
    (processLines st ls s).1 = ls ∧
    (processLines st ls s).2.1.acc = s.acc ++ ls.filterMap pushId ∧
    (processLines st ls s).2.2 = none := by
  intro ls
  induction ls with
  | nil =>
    intro s
    exact ⟨rfl, by simp [processLines_nil], rfl⟩
  | cons line rest ih =>
    intro s
    rcases hd : splitDelim line with _ | ⟨pre, post⟩
    · rw [processLines_cons_nodelim st hd rest s]
      obtain ⟨i1, i2, i3⟩ := ih s
      refine ⟨by simp [i1], ?_, by simp [i3]⟩
      simpa [List.filterMap_cons, pushId_of_nodelim hd] using i2
    · by_cases he : trim pre = [] ∨ trim (removeNoteId post) = []
      · rw [processLines_cons_empty st hd he rest s]
        obtain ⟨i1, i2, i3⟩ := ih s
        refine ⟨by simp [i1], ?_, by simp [i3]⟩
        simpa [List.filterMap_cons, pushId_of_empty hd he] using i2
      · rcases hid : findNoteIdDigits line with _ | ds
        · obtain ⟨m, hm, hdup⟩ := hA s.k (trim pre) (trim (removeNoteId post))
          rw [processLines_cons_add_dup st hd he hid hm hdup rest]
          obtain ⟨i1, i2, i3⟩ := ih
            ⟨s.k + 1, s.acc,
              s.log ++ [StoreCall.add (trim pre) (trim (removeNoteId post))]⟩
          refine ⟨by simp [i1], ?_, by simp [i3]⟩
          simpa [List.filterMap_cons, pushId_of_noid hd hid] using i2
        · rw [processLines_cons_update_ok st hd he hid
            (hU s.k (digitsToNat ds) (trim pre) (trim (removeNoteId post))) rest]
          obtain ⟨i1, i2, i3⟩ := ih
            ⟨s.k + 1, s.acc ++ [digitsToNat ds],
              s.log ++ [StoreCall.update (digitsToNat ds) (trim pre)
                (trim (removeNoteId post))]⟩
          refine ⟨by simp [i1], ?_, by simp [i3]⟩
          rw [List.filterMap_cons, pushId_of_update hd he hid]
          simpa [List.append_assoc] using i2

/-!  ## Process-level case lemmas  -/

theorem process_err {st : AnkiStore} {content m : List Char}
    (h : (runLoop st content).2.2 = some m) :
    process st content = (Except.error m, (runLoop st content).2.1.log) := by
  simp only [process, h]

theorem process_ok_nodelete {st : AnkiStore} {content : List Char}
    (h : (runLoop st content).2.2 = none) (hd : deletedIdsOf st content = []) :
    process st content =
      (Except.ok (finishDoc (runLoop st content).1 (runLoop st content).2.1.acc),
        (runLoop st content).2.1.log) := by
  simp only [process, h, hd]
  rw [if_true]

theorem process_ok_delete_ok {st : AnkiStore} {content : List Char}
    (h : (runLoop st content).2.2 = none) (hne : deletedIdsOf st content ≠ [])
    (hdel : st.deleteNotes (runLoop st content).2.1.k (deletedIdsOf st content) =
      Except.ok ()) :
    process st content =
      (Except.ok (finishDoc (runLoop st content).1 (runLoop st content).2.1.acc),
        (runLoop st content).2.1.log ++
          [StoreCall.delete (deletedIdsOf st content)]) := by
  simp only [process, h, hdel]
  rw [if_neg hne]

theorem process_delete_err {st : AnkiStore} {content m : List Char}
    (h : (runLoop st content).2.2 = none) (hne : deletedIdsOf st content ≠ [])
    (hdel : st.deleteNotes (runLoop st content).2.1.k (deletedIdsOf st content) =
      Except.error m) :
    process st content =
      (Except.error m,
        (runLoop st content).2.1.log ++
          [StoreCall.delete (deletedIdsOf st content)]) := by
  simp only [process, h, hdel]
  rw [if_neg hne]

theorem process_ok_cases {st : AnkiStore} {content out : List Char}
    {log : List StoreCall} (h : process st content = (Except.ok out, log)) :
    (runLoop st content).2.2 = none ∧
    out = finishDoc (runLoop st content).1 (runLoop st content).2.1.acc := by
  rcases he : (runLoop st content).2.2 with _ | m
  · refine ⟨rfl, ?_⟩
    by_cases hd : deletedIdsOf st content = []
    · rw [process_ok_nodelete he hd] at h
      injection h with h1 h2
      exact (Except.ok.inj h1).symm
    · rcases hdel : st.deleteNotes (runLoop st content).2.1.k
          (deletedIdsOf st content) with m | u
      · rw [process_delete_err he hd hdel] at h
        injection h with h1 h2
        exact Except.noConfusion h1
      · cases u
        rw [process_ok_delete_ok he hd hdel] at h
        injection h with h1 h2
        exact (Except.ok.inj h1).symm
  · rw [process_err he] at h
    injection h with h1 h2
    exact Except.noConfusion h1

/-!  ## Serialization facts  -/

theorem newline_not_mem_noteComment (n : Nat) : ¬ '\n' ∈ noteComment n := by
  intro h
  rw [noteComment] at h
  simp only [List.mem_append] at h
  rcases h with (h | h) | h
  · exact absurd h (by decide)
  · have hd := mem_natToChars_digit h
    revert hd
    decide
  · exact absurd h (by decide)

theorem LineRel_no_newline {l l' : List Char} (hr : LineRel l l')
    (h : ¬ '\n' ∈ l) : ¬ '\n' ∈ l' := by
  rcases hr with rfl | ⟨n, _, _, rfl⟩
  · exact h
  · intro hm
    simp only [List.mem_append, List.mem_cons] at hm
    rcases hm with hm | hm | hm
    · exact h hm
    · exact absurd hm (by decide)
    · exact newline_not_mem_noteComment n hm

theorem forall₂_mem_right {R : List Char → List Char → Prop} :
    ∀ {as bs : List (List Char)}, List.Forall₂ R as bs →
    ∀ b ∈ bs, ∃ a ∈ as, R a b := by
  intro as bs h
  induction h with
  | nil => simp
  | @cons a b as' bs' hr _ ih =>
    intro x hx
    rcases List.mem_cons.mp hx with rfl | hx
    · exact ⟨a, by simp, hr⟩
    · obtain ⟨y, hy, hR⟩ := ih x hx
      exact ⟨y, by simp [hy], hR⟩

theorem finishDoc_lines {ls : List (List Char)} {acc : List Nat}
    (hnl : ∀ l ∈ ls, ¬ '\n' ∈ l) :
    jsSplit '\n' (finishDoc ls acc) =
      ls.filter (fun l => !testValidIds l) ++ [validLine acc] := by
  rw [finishDoc]
  refine jsSplit_joinSep (by simp) ?_
  intro l hl
  rcases List.mem_append.mp hl with hl | hl
  · exact hnl l (List.mem_of_mem_filter hl)
  · simp only [List.mem_singleton] at hl
    subst hl
    exact newline_not_mem_validLine acc

theorem filterMap_filter_eq {f : List Char → Option Nat} {q : List Char → Bool}
    {L : List (List Char)} (h : ∀ x ∈ L, q x = true → f x = none) :
    (L.filter (fun l => !q l)).filterMap f = L.filterMap f := by
  induction L with
  | nil => rfl
  | cons a L ih =>
    rw [List.filter_cons]
    rcases hq : q a with _ | _
    · simp only [hq, Bool.not_false, if_true]
      rw [List.filterMap_cons, List.filterMap_cons]
      rcases hf : f a with _ | b <;> simp only [hf]
      · exact ih (fun x hx hqx => h x (by simp [hx]) hqx)
      · rw [ih (fun x hx hqx => h x (by simp [hx]) hqx)]
    · simp only [hq, Bool.not_true]
      rw [if_neg (by simp)]
      rw [List.filterMap_cons, h a (by simp) hq]
      exact ih (fun x hx hqx => h x (by simp [hx]) hqx)

theorem filter_not_test_idem (L : List (List Char)) :
    (L.filter (fun l => !testValidIds l)).filter (fun l => !testValidIds l) =
      L.filter (fun l => !testValidIds l) := by
  induction L with
  | nil => rfl
  | cons a L ih =>
    rw [List.filter_cons]
    rcases hq : testValidIds a with _ | _
    · simp only [hq, Bool.not_false, if_true]
      rw [List.filter_cons]
      simp only [hq, Bool.not_false, if_true]
      rw [ih]
    · simp only [hq, Bool.not_true]
      rw [if_neg (by simp)]
      exact ih

theorem pushId_ne_none_cand {l : List Char} (h : ¬ pushId l = none) :
    isCandidate l = true := by
  rcases hd : splitDelim l with _ | ⟨pre, post⟩
  · exact absurd (pushId_of_nodelim hd) h
  · by_cases he : trim pre = [] ∨ trim (removeNoteId post) = []
    · exact absurd (pushId_of_empty hd he) h
    · exact isCandidate_of_record hd he

theorem record_not_delete {c : StoreCall} (h : isRecordCall c = true) :
    isDeleteCall c = false := by
  cases c <;> simp_all [isRecordCall, isDeleteCall]

theorem filter_delete_nil {L : List StoreCall}
    (h : ∀ c ∈ L, isRecordCall c = true) : L.filter isDeleteCall = [] :=
  List.filter_eq_nil_iff.mpr
    (fun c hc => by rw [record_not_delete (h c hc)]; exact Bool.false_ne_true)

theorem runLoop_eta {st : AnkiStore} {content : List Char}
    (h : (runLoop st content).2.2 = none) :
    processLines st (jsSplit '\n' content) initState =
      ((runLoop st content).1, (runLoop st content).2.1, none) := by
  rw [← h]
  rfl

/-- The lines of any successfully produced output document: the surviving
loop output lines followed by the refreshed valid-identifier-set line. -/
theorem process_ok_lines {st : AnkiStore} {content out : List Char}
    {log : List StoreCall} (h : process st content = (Except.ok out, log)) :
    jsSplit '\n' out =
      ((runLoop st content).1.filter (fun l => !testValidIds l)) ++
        [validLine (runLoop st content).2.1.acc] := by
  obtain ⟨herr, hout⟩ := process_ok_cases h
  obtain ⟨_, _, hrel⟩ := processLines_ok_spec st _ _ _ _ (runLoop_eta herr)
  have hnl : ∀ l ∈ (runLoop st content).1, ¬ '\n' ∈ l := by
    intro l hl
    obtain ⟨a, ha, hR⟩ := forall₂_mem_right hrel l hl
    exact LineRel_no_newline hR (fun hm => mem_jsSplit_not_sep ha hm)
  rw [hout]
  exact finishDoc_lines hnl

theorem filter_test_of_filtered (L : List (List Char)) :
    (L.filter (fun l => !testValidIds l)).filter (fun l => testValidIds l) = [] :=
  List.filter_eq_nil_iff.mpr (fun l hl => by
    have := List.of_mem_filter hl
    simp only [Bool.not_eq_true'] at this
    simp [this])

/-!  ## Claim theorems  -/

/-- Claim C2: after the record loop completes without throwing, the engine
computes the deleted identifiers as the previous set minus the accumulated
current identifiers, and the call log contains exactly one delete call
carrying exactly that set when it is non-empty, and no delete call when it
is empty. -/
theorem claim_C2 (st : AnkiStore) (content : List Char)
    (h : (runLoop st content).2.2 = none) :
    (process st content).2.filter isDeleteCall =
      (if deletedIdsOf st content = [] then []
       else [StoreCall.delete (deletedIdsOf st content)]) := by
  obtain ⟨_, ⟨newLog, hlog, hrec, _⟩, _⟩ :=
    processLines_ok_spec st _ _ _ _ (runLoop_eta h)
  have hfl : (runLoop st content).2.1.log.filter isDeleteCall = [] := by
    rw [hlog]
    simpa [initState] using filter_delete_nil hrec
  by_cases hd : deletedIdsOf st content = []
  · rw [process_ok_nodelete h hd, if_pos hd]
    exact hfl
  · rw [if_neg hd]
    rcases hdel : st.deleteNotes (runLoop st content).2.1.k
        (deletedIdsOf st content) with m | u
    · rw [process_delete_err h hd hdel]
      simp only [List.filter_append, hfl, List.nil_append]
      rfl
    · cases u
      rw [process_ok_delete_ok h hd hdel]
      simp only [List.filter_append, hfl, List.nil_append]
      rfl

/-- Claim C2 witness: previous set 1,2,3 with surviving identifiers 1 and 3
yields exactly one delete call carrying exactly the set consisting of 2. -/
theorem claim_C2_witness :
    (runLoop stOk ("a ::: b <!-- noteId:1 -->\nc ::: d <!-- noteId:3 -->\n<!-- validNoteIds: 1,2,3 -->".toList)).2.2 = none ∧
    deletedIdsOf stOk ("a ::: b <!-- noteId:1 -->\nc ::: d <!-- noteId:3 -->\n<!-- validNoteIds: 1,2,3 -->".toList) = [2] ∧
    (process stOk ("a ::: b <!-- noteId:1 -->\nc ::: d <!-- noteId:3 -->\n<!-- validNoteIds: 1,2,3 -->".toList)).2.filter isDeleteCall =
      (if deletedIdsOf stOk ("a ::: b <!-- noteId:1 -->\nc ::: d <!-- noteId:3 -->\n<!-- validNoteIds: 1,2,3 -->".toList) = [] then []
       else [StoreCall.delete (deletedIdsOf stOk ("a ::: b <!-- noteId:1 -->\nc ::: d <!-- noteId:3 -->\n<!-- validNoteIds: 1,2,3 -->".toList))]) :=
  ⟨by decide, by decide, claim_C2 stOk _ (by decide)⟩

/-- Claim C3 counterexample: with adds and updates succeeding but deletes
failing, process propagates the delete error instead of completing and
returning the rewritten document; the claim as stated is false on this
input. -/
theorem claim_C3_counterexample :
    process stDelFail ("Foo ::: Bar <!-- noteId:5 -->\n<!-- validNoteIds: 5,6 -->".toList) =
      (Except.error ("network down".toList),
        [StoreCall.update 5 "Foo".toList "Bar".toList, StoreCall.delete [6]]) := by
  decide

/-- Claim C3 (amended): a deleteRecords failure is fatal: after a clean
record loop, if the computed deleted-identifier set is non-empty and the
delete call fails, process rethrows the delete error and returns no
rewritten document; the delete call is still recorded after the record
calls. -/
theorem claim_C3_amended (st : AnkiStore) (content m : List Char)
    (h : (runLoop st content).2.2 = none)
    (hne : deletedIdsOf st content ≠ [])
    (hdel : st.deleteNotes (runLoop st content).2.1.k (deletedIdsOf st content) =
      Except.error m) :
    process st content =
      (Except.error m,
        (runLoop st content).2.1.log ++
          [StoreCall.delete (deletedIdsOf st content)]) :=
  process_delete_err h hne hdel

/-- Claim C3 witness: the amended claim at a concrete document and store. -/
theorem claim_C3_witness :
    (runLoop stDelFail ("Foo ::: Bar <!-- noteId:5 -->\n<!-- validNoteIds: 5,6 -->".toList)).2.2 = none ∧
    deletedIdsOf stDelFail ("Foo ::: Bar <!-- noteId:5 -->\n<!-- validNoteIds: 5,6 -->".toList) ≠ [] ∧
    process stDelFail ("Foo ::: Bar <!-- noteId:5 -->\n<!-- validNoteIds: 5,6 -->".toList) =
      (Except.error ("network down".toList),
        (runLoop stDelFail ("Foo ::: Bar <!-- noteId:5 -->\n<!-- validNoteIds: 5,6 -->".toList)).2.1.log ++
          [StoreCall.delete (deletedIdsOf stDelFail ("Foo ::: Bar <!-- noteId:5 -->\n<!-- validNoteIds: 5,6 -->".toList))]) :=
  ⟨by decide, by decide, claim_C3_amended stDelFail _ _ (by decide) (by decide) (by decide)⟩

/-- Claim C4: when an unsynced record's add fails with a duplicate-classified
message, the engine assigns no identifier, leaves the line unannotated, adds
nothing to the accumulator, surfaces no error of its own, and continues with
the remaining records (only the call counter and call log advance). -/
theorem claim_C4 (st : AnkiStore) (line : List Char) (rest : List (List Char))
    (s : SyncState) (pre post m : List Char)
    (h : splitDelim line = some (pre, post))
    (hne : ¬(trim pre = [] ∨ trim (removeNoteId post) = []))
    (hid : findNoteIdDigits line = none)
    (hadd : st.addNote s.k (trim pre) (trim (removeNoteId post)) = Except.error m)
    (hdup : isDupMsg m = true) :
    processLines st (line :: rest) s =
      (line :: (processLines st rest
          ⟨s.k + 1, s.acc,
            s.log ++ [StoreCall.add (trim pre) (trim (removeNoteId post))]⟩).1,
        (processLines st rest
          ⟨s.k + 1, s.acc,
            s.log ++ [StoreCall.add (trim pre) (trim (removeNoteId post))]⟩).2) :=
  processLines_cons_add_dup st h hne hid hadd hdup rest

/-- Claim C4 witness: a duplicate-rejected add at a concrete line. -/
theorem claim_C4_witness :
    processLines stDup ("X ::: Y".toList :: ["Z".toList]) initState =
      ("X ::: Y".toList :: (processLines stDup ["Z".toList]
          ⟨initState.k + 1, initState.acc,
            initState.log ++ [StoreCall.add "X".toList "Y".toList]⟩).1,
        (processLines stDup ["Z".toList]
          ⟨initState.k + 1, initState.acc,
            initState.log ++ [StoreCall.add "X".toList "Y".toList]⟩).2) :=
  claim_C4 stDup _ _ initState "X".toList "Y".toList dupLit2
    (by decide) (by decide) (by decide) (by decide) (by decide)

/-- Claim C5: a failing update, or a failing add whose error message is not
classified as duplicate, aborts the record loop at that record — the error
is rethrown, the remaining lines are left unprocessed, and the call log ends
with the failing call; at the process level the thrown error propagates and
no rewritten document is produced. -/
theorem claim_C5 :
    (∀ (st : AnkiStore) (line : List Char) (rest : List (List Char))
        (s : SyncState) (pre post m : List Char),
      splitDelim line = some (pre, post) →
      ¬(trim pre = [] ∨ trim (removeNoteId post) = []) →
      ((∃ ds, findNoteIdDigits line = some ds ∧
          st.updateNote s.k (digitsToNat ds) (trim pre) (trim (removeNoteId post)) =
            Except.error m) ∨
        (findNoteIdDigits line = none ∧
          st.addNote s.k (trim pre) (trim (removeNoteId post)) = Except.error m ∧
          isDupMsg m = false)) →
      ∃ c, processLines st (line :: rest) s =
        (line :: rest, ⟨s.k + 1, s.acc, s.log ++ [c]⟩, some m)) ∧
    (∀ (st : AnkiStore) (content m : List Char),
      (runLoop st content).2.2 = some m →
      process st content = (Except.error m, (runLoop st content).2.1.log)) := by
  constructor
  · intro st line rest s pre post m h hne hcase
    rcases hcase with ⟨ds, hid, hup⟩ | ⟨hid, hadd, hdup⟩
    · exact ⟨_, processLines_cons_update_err st h hne hid hup rest⟩
    · exact ⟨_, processLines_cons_add_err st h hne hid hadd hdup rest⟩
  · intro st content m h
    exact process_err h

/-- Claim C5 witness: a non-duplicate add failure at a concrete line aborts
the loop, and the error propagates out of process. -/
theorem claim_C5_witness :
    (∃ c, processLines stAddFail ("X ::: Y".toList :: ["Z ::: W".toList]) initState =
      ("X ::: Y".toList :: ["Z ::: W".toList],
        ⟨initState.k + 1, initState.acc, initState.log ++ [c]⟩,
        some ("boom".toList))) ∧
    process stAddFail ("X ::: Y".toList) =
      (Except.error ("boom".toList),
        (runLoop stAddFail ("X ::: Y".toList)).2.1.log) :=
  ⟨claim_C5.1 stAddFail _ _ initState "X".toList "Y".toList ("boom".toList)
      (by decide) (by decide) (Or.inr ⟨by decide, by decide, by decide⟩),
    claim_C5.2 stAddFail _ _ (by decide)⟩

/-- Claim C6: the two-new-card scenario — identifiers 10 and 11 are assigned
in order and the output is exactly the annotated document with the
valid-identifier-set line appended. -/
theorem claim_C6 :
    (process stOk ("Capital of France ::: Paris\nRiver in Egypt ::: Nile".toList)).1 =
      Except.ok ("Capital of France ::: Paris <!-- noteId:10 -->\nRiver in Egypt ::: Nile <!-- noteId:11 -->\n<!-- validNoteIds: 10,11 -->".toList) := by
  decide

/-- Claim C7: when the record loop completes without throwing, the number of
record store calls (adds plus updates) equals the number of candidate lines:
lines containing the delimiter whose trimmed front and identifier-stripped
trimmed back are both non-empty. -/
theorem claim_C7 (st : AnkiStore) (content : List Char)
    (h : (runLoop st content).2.2 = none) :
    ((runLoop st content).2.1.log.filter isRecordCall).length =
      ((jsSplit '\n' content).filter isCandidate).length := by
  obtain ⟨_, ⟨newLog, hlog, hrec, hlen⟩, _⟩ :=
    processLines_ok_spec st _ _ _ _ (runLoop_eta h)
  rw [hlog]
  simp only [initState, List.nil_append]
  rw [List.filter_eq_self.mpr hrec, hlen]

/-- Claim C7 witness: a document with one delimiterless line, one candidate,
and one empty-backed delimiter line has exactly one record call. -/
theorem claim_C7_witness :
    (runLoop stOk ("plain text\na ::: b\nEmpty :::   ".toList)).2.2 = none ∧
    ((runLoop stOk ("plain text\na ::: b\nEmpty :::   ".toList)).2.1.log.filter
        isRecordCall).length =
      ((jsSplit '\n' ("plain text\na ::: b\nEmpty :::   ".toList)).filter
        isCandidate).length :=
  ⟨by decide, claim_C7 stOk _ (by decide)⟩

/-- Claim C8 counterexample: the line consisting of the delimiter followed by
a valid-identifier-set comment has an empty trimmed front, produces no record
and no error, yet is NOT reproduced in the output — it matches
VALID_IDS_REGEX and is removed by the serialization filter, so the claim as
stated is false on this input. -/
theorem claim_C8_counterexample :
    splitDelim (" ::: <!-- validNoteIds: 1 -->".toList) =
      some ([], "<!-- validNoteIds: 1 -->".toList) ∧
    trim ([] : List Char) = [] ∧
    (process stOk (" ::: <!-- validNoteIds: 1 -->".toList)).1 =
      Except.ok ("<!-- validNoteIds:  -->".toList) ∧
    ¬ (" ::: <!-- validNoteIds: 1 -->".toList) ∈
      jsSplit '\n' ("<!-- validNoteIds:  -->".toList) :=
  ⟨by decide, by decide, by decide, by decide⟩

/-- Claim C8 (amended): a delimiter line whose trimmed front or
identifier-stripped trimmed back is empty produces no record, triggers no
store call and no error, and passes through the loop untouched; it is
reproduced character-for-character in its position in the output provided it
does not itself match the valid-identifier-set pattern (a matching line is
removed together with all other such lines). -/
theorem claim_C8_amended :
    (∀ (st : AnkiStore) (line : List Char) (rest : List (List Char))
        (s : SyncState) (pre post : List Char),
      splitDelim line = some (pre, post) →
      (trim pre = [] ∨ trim (removeNoteId post) = []) →
      processLines st (line :: rest) s =
        (line :: (processLines st rest s).1, (processLines st rest s).2)) ∧
    (∀ (st : AnkiStore) (A B : List (List Char)) (line out : List Char)
        (log : List StoreCall) (pre post : List Char),
      splitDelim line = some (pre, post) →
      (trim pre = [] ∨ trim (removeNoteId post) = []) →
      testValidIds line = false →
      (∀ l ∈ A ++ line :: B, ¬ '\n' ∈ l) →
      process st (joinSep ['\n'] (A ++ line :: B)) = (Except.ok out, log) →
      ∃ Bs, jsSplit '\n' out =
        ((processLines st A initState).1.filter (fun l => !testValidIds l)) ++
          line :: Bs) := by
  constructor
  · intro st line rest s pre post h he
    exact processLines_cons_empty st h he rest s
  · intro st A B line out log pre post hdl he htest hnl hok
    have hsplit : jsSplit '\n' (joinSep ['\n'] (A ++ line :: B)) = A ++ line :: B :=
      jsSplit_joinSep (by simp) hnl
    obtain ⟨herr, hout⟩ := process_ok_cases hok
    have hrl : runLoop st (joinSep ['\n'] (A ++ line :: B)) =
        processLines st (A ++ line :: B) initState := by
      rw [runLoop, hsplit]
    rcases processLines_append st A (line :: B) initState with
      ⟨A', s', m, hA, hAB⟩ | ⟨A', s', hA, hAB⟩
    · exfalso
      rw [hrl, hAB] at herr
      exact Option.noConfusion herr
    · have hline := processLines_cons_empty st hdl he B s'
      rcases hB : processLines st B s' with ⟨B', sB, eB⟩
      have herr2 : eB = none := by
        rw [hrl, hAB, hline, hB] at herr
        exact herr
      subst herr2
      have hLines : (runLoop st (joinSep ['\n'] (A ++ line :: B))).1 =
          A' ++ line :: B' := by
        rw [hrl, hAB, hline, hB]
      obtain ⟨_, _, hrelA⟩ := processLines_ok_spec st A initState A' s' hA
      obtain ⟨_, _, hrelB⟩ := processLines_ok_spec st B s' B' sB hB
      have hnlA : ∀ l ∈ A', ¬ '\n' ∈ l := fun l hl => by
        obtain ⟨a, ha, hR⟩ := forall₂_mem_right hrelA l hl
        exact LineRel_no_newline hR (fun hm => hnl a (by simp [ha]) hm)
      have hnlB : ∀ l ∈ B', ¬ '\n' ∈ l := fun l hl => by
        obtain ⟨a, ha, hR⟩ := forall₂_mem_right hrelB l hl
        exact LineRel_no_newline hR
          (fun hm => hnl a (by simp [List.mem_cons, ha]) hm)
      have hnlAll : ∀ l ∈ A' ++ line :: B', ¬ '\n' ∈ l := by
        intro l hl
        rcases List.mem_append.mp hl with hl | hl
        · exact hnlA l hl
        · rcases List.mem_cons.mp hl with rfl | hl
          · exact hnl l (by simp)
          · exact hnlB l hl
      have hout2 : jsSplit '\n' out =
          (A' ++ line :: B').filter (fun l => !testValidIds l) ++
            [validLine (runLoop st (joinSep ['\n'] (A ++ line :: B))).2.1.acc] := by
        rw [hout, hLines]
        exact finishDoc_lines hnlAll
      rw [List.filter_append, List.filter_cons] at hout2
      simp only [htest, Bool.not_false, if_true] at hout2
      refine ⟨(B'.filter (fun l => !testValidIds l)) ++
        [validLine (runLoop st (joinSep ['\n'] (A ++ line :: B))).2.1.acc], ?_⟩
      rw [hout2, hA]
      simp [List.append_assoc]

/-- Claim C8 witness: the amended claim at a concrete document whose second
line is an empty-backed delimiter line; the line reappears verbatim between
its processed neighbours. -/
theorem claim_C8_witness :
    process stOk (joinSep ['\n']
        (["a ::: b".toList] ++ "Empty :::   ".toList :: ["tail".toList])) =
      (Except.ok ("a ::: b <!-- noteId:10 -->\nEmpty :::   \ntail\n<!-- validNoteIds: 10 -->".toList),
        [StoreCall.add "a".toList "b".toList]) ∧
    (∃ Bs, jsSplit '\n'
        ("a ::: b <!-- noteId:10 -->\nEmpty :::   \ntail\n<!-- validNoteIds: 10 -->".toList) =
      ((processLines stOk ["a ::: b".toList] initState).1.filter
        (fun l => !testValidIds l)) ++ "Empty :::   ".toList :: Bs) :=
  ⟨by decide,
    claim_C8_amended.2 stOk ["a ::: b".toList] ["tail".toList]
      ("Empty :::   ".toList)
      ("a ::: b <!-- noteId:10 -->\nEmpty :::   \ntail\n<!-- validNoteIds: 10 -->".toList)
      [StoreCall.add "a".toList "b".toList] "Empty".toList "  ".toList
      (by decide) (by decide) (by decide) (by decide) (by decide)⟩

/-- Claim C9: on every successful run the output, split into lines, is the
surviving loop lines (all failing VALID_IDS_REGEX) followed by exactly one
line matching that pattern — the valid-identifier-set line built from the
accumulator in encounter order — which is the last line. -/
theorem claim_C9 (st : AnkiStore) (content out : List Char) (log : List StoreCall)
    (h : process st content = (Except.ok out, log)) :
    jsSplit '\n' out =
      ((runLoop st content).1.filter (fun l => !testValidIds l)) ++
        [validLine (runLoop st content).2.1.acc] ∧
    (jsSplit '\n' out).filter (fun l => testValidIds l) =
      [validLine (runLoop st content).2.1.acc] ∧
    (jsSplit '\n' out).getLast? = some (validLine (runLoop st content).2.1.acc) := by
  have h1 := process_ok_lines h
  refine ⟨h1, ?_, ?_⟩
  · rw [h1, List.filter_append, filter_test_of_filtered, List.nil_append,
      List.filter_cons]
    simp [testValidIds_validLine]
  · rw [h1, List.getLast?_concat]

/-- Claim C9 witness: a document with an existing valid-set line in the
middle; the output carries exactly one such line, at the end. -/
theorem claim_C9_witness :
    process stOk ("a ::: b\n<!-- validNoteIds: 7 -->\nplain".toList) =
      (Except.ok ("a ::: b <!-- noteId:10 -->\nplain\n<!-- validNoteIds: 10 -->".toList),
        [StoreCall.add "a".toList "b".toList, StoreCall.delete [7]]) ∧
    ((jsSplit '\n' ("a ::: b <!-- noteId:10 -->\nplain\n<!-- validNoteIds: 10 -->".toList)).filter
        (fun l => testValidIds l) =
      [validLine (runLoop stOk ("a ::: b\n<!-- validNoteIds: 7 -->\nplain".toList)).2.1.acc] ∧
    (jsSplit '\n' ("a ::: b <!-- noteId:10 -->\nplain\n<!-- validNoteIds: 10 -->".toList)).getLast? =
      some (validLine (runLoop stOk ("a ::: b\n<!-- validNoteIds: 7 -->\nplain".toList)).2.1.acc)) :=
  ⟨by decide,
    (claim_C9 stOk ("a ::: b\n<!-- validNoteIds: 7 -->\nplain".toList)
      ("a ::: b <!-- noteId:10 -->\nplain\n<!-- validNoteIds: 10 -->".toList)
      [StoreCall.add "a".toList "b".toList, StoreCall.delete [7]] (by decide)).2⟩

/-- Claim C10: process always appends the valid-identifier-set line, so every
successful output ends with it; it is never the identity on a document whose
last line does not match the pattern; with an empty accumulator the appended
line has an empty identifier list and falls outside the §6 grammar, which
requires at least one number. -/
theorem claim_C10 (st : AnkiStore) (content out : List Char) (log : List StoreCall)
    (h : process st content = (Except.ok out, log)) :
    (jsSplit '\n' out).getLast? = some (validLine (runLoop st content).2.1.acc) ∧
    (∀ lastLine, (jsSplit '\n' content).getLast? = some lastLine →
      testValidIds lastLine = false → out ≠ content) ∧
    validLine [] = "<!-- validNoteIds:  -->".toList ∧
    ¬ specValidSetLine (validLine []) := by
  have h1 := process_ok_lines h
  refine ⟨by rw [h1, List.getLast?_concat], ?_, by decide, ?_⟩
  · intro lastLine hlast htest heq
    rw [heq] at h1
    rw [h1, List.getLast?_concat] at hlast
    have hval := Option.some.inj hlast
    rw [← hval] at htest
    rw [testValidIds_validLine] at htest
    exact Bool.noConfusion htest
  · rintro ⟨ds, hne, hdig, heq⟩
    have heq2 : ("<!-- validNoteIds: ".toList : List Char) ++ ([] ++ " -->".toList) =
        "<!-- validNoteIds: ".toList ++ (joinSep [','] ds ++ " -->".toList) := by
      rw [← List.append_assoc, ← List.append_assoc]
      have hv : validLine ([] : List Nat) =
          "<!-- validNoteIds: ".toList ++ [] ++ " -->".toList := rfl
      rw [← hv]
      exact heq
    have hJ := List.append_cancel_left heq2
    rw [List.nil_append] at hJ
    have hJnil : joinSep [','] ds = [] := List.append_left_eq_self.mp hJ.symm
    cases ds with
    | nil => exact hne rfl
    | cons d ds' =>
      cases ds' with
      | nil =>
        have hd := hdig d (by simp)
        rw [show joinSep [','] [d] = d from rfl] at hJnil
        exact hd.1 hJnil
      | cons d2 ds'' =>
        rw [joinSep_cons _ _ _ (by simp)] at hJnil
        simp at hJnil

/-- Claim C10 witness: a document with no candidates and no previous
annotation still gains a trailing valid-set line and is not mapped to
itself. -/
theorem claim_C10_witness :
    process stOk ("just text".toList) =
      (Except.ok ("just text\n<!-- validNoteIds:  -->".toList), []) ∧
    ((jsSplit '\n' ("just text\n<!-- validNoteIds:  -->".toList)).getLast? =
      some (validLine (runLoop stOk ("just text".toList)).2.1.acc) ∧
    (∀ lastLine, (jsSplit '\n' ("just text".toList)).getLast? = some lastLine →
      testValidIds lastLine = false →
      ("just text\n<!-- validNoteIds:  -->".toList : List Char) ≠ "just text".toList) ∧
    validLine [] = "<!-- validNoteIds:  -->".toList ∧
    ¬ specValidSetLine (validLine [])) :=
  ⟨by decide,
    claim_C10 stOk ("just text".toList)
      ("just text\n<!-- validNoteIds:  -->".toList) [] (by decide)⟩

/-- Claim C1 counterexample: a flashcard line that also matches
VALID_IDS_REGEX is removed by the serialization filter, so its identifier is
lost from the second run's accumulator and the valid-identifier-set line
changes between the first and second outputs — idempotence fails as stated,
with the same always-succeeding store serving both runs. -/
theorem claim_C1_counterexample :
    (process stOk ("a ::: b <!-- noteId:1 --> <!-- validNoteIds: 9 -->".toList)).1 =
      Except.ok ("<!-- validNoteIds: 1 -->".toList) ∧
    (process stOk ("<!-- validNoteIds: 1 -->".toList)).1 =
      Except.ok ("<!-- validNoteIds:  -->".toList) ∧
    ("<!-- validNoteIds:  -->".toList : List Char) ≠
      "<!-- validNoteIds: 1 -->".toList :=
  ⟨by decide, by decide, by decide⟩

/-- Claim C1 (amended): idempotence of the sync pass holds for every document
in which no flashcard-candidate line also matches the valid-identifier-set
pattern: if a first run succeeds with output out1, then a second run on out1
with a store that returns identical responses (every update succeeds, every
re-submitted unsynced record is again rejected as a duplicate, deletes
succeed) returns out1 unchanged. -/
theorem claim_C1_amended (st1 st2 : AnkiStore) (content out1 : List Char)
    (log1 : List StoreCall)
    (hrun1 : process st1 content = (Except.ok out1, log1))
    (hclean : ∀ l ∈ jsSplit '\n' content,
      isCandidate l = true → testValidIds l = false)
    (hU : ∀ k i f b, st2.updateNote k i f b = Except.ok ())
    (hA : ∀ k f b, ∃ m, st2.addNote k f b = Except.error m ∧ isDupMsg m = true)
    (hD : ∀ k ids, st2.deleteNotes k ids = Except.ok ()) :
    (process st2 out1).1 = Except.ok out1 := by
  obtain ⟨herr1, hout1⟩ := process_ok_cases hrun1
  obtain ⟨hacc1, _, hrel1⟩ := processLines_ok_spec st1 _ _ _ _ (runLoop_eta herr1)
  have hacc1x : (runLoop st1 content).2.1.acc =
      (runLoop st1 content).1.filterMap pushId := by
    simpa [initState] using hacc1
  have hptf : ∀ l' ∈ (runLoop st1 content).1,
      testValidIds l' = true → pushId l' = none := by
    intro l' hl' ht
    by_contra hpush
    obtain ⟨a, ha, hR⟩ := forall₂_mem_right hrel1 l' hl'
    rcases hR with rfl | ⟨n, hid, hcand, rfl⟩
    · rw [hclean l' ha (pushId_ne_none_cand hpush)] at ht
      exact Bool.noConfusion ht
    · rw [testValidIds_append_comment (hclean a ha hcand) n] at ht
      exact Bool.noConfusion ht
  have hlines1 : jsSplit '\n' out1 =
      (runLoop st1 content).1.filter (fun l => !testValidIds l) ++
        [validLine (runLoop st1 content).2.1.acc] := process_ok_lines hrun1
  obtain ⟨hs1, hs2, hs3⟩ := processLines_stable st2 hU hA (jsSplit '\n' out1) initState
  have herr2 : (runLoop st2 out1).2.2 = none := hs3
  have hL2 : (runLoop st2 out1).1 = jsSplit '\n' out1 := hs1
  have hacc2 : (runLoop st2 out1).2.1.acc = (runLoop st1 content).2.1.acc := by
    have hs2x : (runLoop st2 out1).2.1.acc =
        initState.acc ++ (jsSplit '\n' out1).filterMap pushId := hs2
    rw [hs2x, hlines1, List.filterMap_append,
      show ([validLine (runLoop st1 content).2.1.acc] :
          List (List Char)).filterMap pushId = [] from by
        simp [List.filterMap_cons, pushId_validLine],
      List.append_nil, filterMap_filter_eq hptf, ← hacc1x]
    simp [initState]
  have hfin : finishDoc (runLoop st2 out1).1 (runLoop st2 out1).2.1.acc = out1 := by
    rw [hL2, hacc2, hlines1, finishDoc, List.filter_append, filter_not_test_idem,
      show ([validLine (runLoop st1 content).2.1.acc] :
          List (List Char)).filter (fun l => !testValidIds l) = [] from by
        simp [List.filter_cons, testValidIds_validLine],
      List.append_nil, hout1, finishDoc]
  by_cases hdel : deletedIdsOf st2 out1 = []
  · rw [process_ok_nodelete herr2 hdel, hfin]
  · rw [process_ok_delete_ok herr2 hdel (hD _ _), hfin]

/-- Claim C1 witness: a first run annotating one card, then a second run with
a store whose updates succeed and whose adds are rejected as duplicates,
reproducing the first output exactly. -/
theorem claim_C1_witness :
    process stOk ("a ::: b\nplain".toList) =
      (Except.ok ("a ::: b <!-- noteId:10 -->\nplain\n<!-- validNoteIds: 10 -->".toList),
        [StoreCall.add "a".toList "b".toList]) ∧
    (process stDup
        ("a ::: b <!-- noteId:10 -->\nplain\n<!-- validNoteIds: 10 -->".toList)).1 =
      Except.ok
        ("a ::: b <!-- noteId:10 -->\nplain\n<!-- validNoteIds: 10 -->".toList) :=
  ⟨by decide,
    claim_C1_amended stOk stDup ("a ::: b\nplain".toList)
      ("a ::: b <!-- noteId:10 -->\nplain\n<!-- validNoteIds: 10 -->".toList)
      [StoreCall.add "a".toList "b".toList] (by decide) (by decide)
      (fun k i f b => rfl) (fun k f b => ⟨dupLit2, rfl, by decide⟩)
      (fun k ids => rfl)⟩

end YAOTA
